import Mathlib

/-!
Verification of the CPG RAG pipeline (Code_analyzer repository).

This file gives a shallow embedding, in Lean 4, of the core retrieval pipeline
of the repository: the name-resolution, enrichment and graph-index code of
src/cpg_rag_complete/step3_setup_rag.py and the query / rank-fusion /
graph-expansion code of src/cpg_rag_complete/step4_query_rag.py.

Python strings are modelled as Lean strings (lists of characters); Python ints
as Int/Nat; Python floats as rationals (all score arithmetic in the source is
exact over decimal constants); Python dicts as association lists or as
explicitly-updated functions; raised exceptions as Except.  The small regular
expressions used by the source are compiled by hand into scanning functions
over character lists, following Python re semantics (leftmost match, greedy
quantifiers over negated character classes, word boundaries).  External
collaborators (the Python ast parser, the vector stores, the chat model) are
modelled as oracle parameters, exactly at the call boundary the source uses.
-/

namespace CPG

/-! ## Character and string utilities -/

/-- Whitespace test used wherever Python applies str.strip or the regex
class backslash-s.  Python additionally treats form-feed and vertical tab as
whitespace; none of the analysed code paths depend on those characters. -/
def isWSC (c : Char) : Bool := c.isWhitespace

/-- Python word character class: A-Za-z0-9 underscore. -/
def isWordC (c : Char) : Bool := c.isAlphanum || c = '_'

/-- Either quote character accepted by the literal-lookup regex. -/
def isQuoteC (c : Char) : Bool := c = '"' || c = '\''

/-- Python str.strip. -/
def pyStripL (l : List Char) : List Char :=
  ((l.dropWhile isWSC).reverse.dropWhile isWSC).reverse

/-- Python str.lower (ASCII, as all vocabularies in the source are ASCII). -/
def pyLower (l : List Char) : List Char := l.map Char.toLower

/-- Python str.upper. -/
def pyUpper (l : List Char) : List Char := l.map Char.toUpper

/-- Python substring test (the `in` operator on strings). -/
def isSubB (n : List Char) : List Char → Bool
  | [] => n.isPrefixOf []
  | c :: t => n.isPrefixOf (c :: t) || isSubB n t

/-- Auxiliary for countSub: scans left to right; after a match the cooldown
counter skips the remaining matched characters, making occurrences
non-overlapping exactly as Python str.count counts them. -/
def countSubGo (n : List Char) : Nat → List Char → Nat
  | _, [] => 0
  | 0, c :: t => if n.isPrefixOf (c :: t) then 1 + countSubGo n (n.length - 1) t
                 else countSubGo n 0 t
  | k + 1, _ :: t => countSubGo n k t

/-- Python str.count: number of non-overlapping occurrences, scanning left to
right; the empty needle counts len+1 occurrences, as in Python. -/
def countSub (n : List Char) (h : List Char) : Nat :=
  if n.isEmpty then h.length + 1 else countSubGo n 0 h

/-! ## step4_query_rag.py, module-level utilities -/

/-- Source: simple_keyword_score (step4_query_rag.py lines 41-43). -/
def simple_keyword_score (text : String) (keywords : List String) : Nat :=
  let t := pyLower text.toList
  (keywords.map (fun k => countSub (pyLower k.toList) t)).sum

/-- Source: extract_quoted (step4_query_rag.py lines 48-50), the regex
quote, one-or-more non-quote characters, quote; leftmost match, group 1.
The scan tries each start position in order; at a quote character the greedy
run of non-quote characters must be nonempty and followed by a quote. -/
def findQuoted : List Char → Option (List Char)
  | [] => none
  | c :: rest =>
    if isQuoteC c then
      let run := rest.takeWhile (fun d => !(isQuoteC d))
      match rest.dropWhile (fun d => !(isQuoteC d)) with
      | _ :: _ => if run.isEmpty then findQuoted rest else some run
      | [] => findQuoted rest
    else findQuoted rest

def extract_quoted (query : String) : Option String :=
  (findQuoted query.toList).map (fun l => ⟨l⟩)

/-- The angle-bracket fallback of _literal_lookup: first match of the regex
open-angle, one-or-more non-close characters, close-angle. -/
def findAngle : List Char → Option (List Char)
  | [] => none
  | c :: rest =>
    if c = '<' then
      let run := rest.takeWhile (fun d => d ≠ '>')
      match rest.dropWhile (fun d => d ≠ '>') with
      | _ :: _ => if run.isEmpty then findAngle rest else some run
      | [] => findAngle rest
    else findAngle rest

/-! ## step3_setup_rag.py: synthetic-name filters and display names -/

/-- Pattern caret, open-angle, dot-star, close-angle, dollar, applied to an
already-stripped string (is_synthetic strips before matching): starts with
an open angle, ends with a close angle, no newline in between (dot does not
cross newlines). -/
def matchAngleFullB : List Char → Bool
  | '<' :: rest =>
    match rest.getLast? with
    | some '>' => rest.dropLast.all (fun c => c ≠ '\n')
    | _ => false
  | _ => false

/-- Source: SYNTHETIC_PATTERNS (step3_setup_rag.py lines 46-52), matched in
order against the stripped name: angle-wrapped, operator-dot prefix,
case-insensitive fake prefix, punctuation-only, case-insensitive metaClass
prefix. -/
def syntheticMatchB (s : List Char) : Bool :=
  matchAngleFullB s
  || "operator.".toList.isPrefixOf s
  || "fake".toList.isPrefixOf (pyLower s)
  || (!s.isEmpty && s.all (fun c => !(isWordC c)))
  || "metaclass".toList.isPrefixOf (pyLower s)

/-- Source: is_synthetic (step3_setup_rag.py lines 54-63). -/
def is_synthetic : Option String → Bool
  | none => true
  | some name =>
    if name.toList.isEmpty then true
    else
      let s := pyStripL name.toList
      if s.isEmpty then true else syntheticMatchB s

/-- Python truthiness of an optional string. -/
def pyTruthyS : Option String → Bool
  | none => false
  | some s => !s.toList.isEmpty

/-- The characters the qualified-name split of make_display_name uses:
dot, hash, slash, colon, dollar, angle brackets and space. -/
def isSplitC (c : Char) : Bool :=
  c = '.' || c = '#' || c = '/' || c = ':' || c = '$' || c = '<' || c = '>' || c = ' '

mutual

/-- Accumulates the current token (reversed) while scanning; a split
character closes the token and switches to separator-skipping. -/
def splitRunsGo (cur : List Char) : List Char → List (List Char)
  | [] => [cur.reverse]
  | c :: t =>
    if isSplitC c then cur.reverse :: splitRunsSkip t
    else splitRunsGo (c :: cur) t

/-- Skips the remainder of a maximal separator run; end of string after a
separator run yields a trailing empty token, as Python re.split does. -/
def splitRunsSkip : List Char → List (List Char)
  | [] => [[]]
  | c :: t => if isSplitC c then splitRunsSkip t else splitRunsGo [c] t

end

/-- Python re.split on one-or-more split characters: tokens between maximal
runs of split characters, with empty tokens at the ends when the string
starts or ends with a split character. -/
def splitRuns (s : List Char) : List (List Char) :=
  splitRunsGo [] s

/-- The qualified-name fallback of make_display_name: the last token that is
nonempty and not synthetic. -/
def lastNonSynthTok (full : String) : Option String :=
  ((splitRuns full.toList).reverse.find?
    (fun t => !t.isEmpty && !(is_synthetic (some ⟨t⟩)))).map (fun t => ⟨t⟩)

/-! ### extract_name_from_code (step3_setup_rag.py lines 68-87) -/

/-- After a keyword, the regexes require one-or-more whitespace characters and
then an identifier; returns the identifier and the remainder after it. -/
def identAfterKwR (s : List Char) : Option (List Char × List Char) :=
  let ws := s.takeWhile isWSC
  if ws.isEmpty then none
  else
    match s.drop ws.length with
    | c :: t =>
      if c.isAlpha || c = '_' then
        some (c :: t.takeWhile isWordC, t.dropWhile isWordC)
      else none
    | [] => none

def identAfterKw (s : List Char) : Option (List Char) :=
  (identAfterKwR s).map (fun p => p.1)

/-- One attempt of the multiline-anchored regex caret, whitespace-star,
def-or-async-def-or-class, whitespace-plus, identifier, at a line start.
The leading whitespace-star may cross newlines; the three keyword
alternatives have pairwise distinct first letters, so at most one applies. -/
def tryDefClassAt (s : List Char) : Option (List Char) :=
  let body := s.dropWhile isWSC
  if "def".toList.isPrefixOf body then identAfterKw (body.drop 3)
  else if "async def".toList.isPrefixOf body then identAfterKw (body.drop 9)
  else if "class".toList.isPrefixOf body then identAfterKw (body.drop 5)
  else none

/-- Leftmost search of the anchored pattern: candidate start positions are the
string start and every position following a newline; the flag records whether
the current position is a line start. -/
def searchDefClassGo : Bool → List Char → Option (List Char)
  | atStart, s =>
    match (if atStart then tryDefClassAt s else none) with
    | some r => some r
    | none =>
      match s with
      | [] => none
      | c :: t => searchDefClassGo (c = '\n') t

def searchDefClass (s : List Char) : Option (List Char) :=
  searchDefClassGo true s

/-- Leftmost search of the pattern function-keyword, whitespace-plus,
identifier. -/
def searchFunctionKw : List Char → Option (List Char)
  | [] => none
  | c :: t =>
    match (if "function".toList.isPrefixOf (c :: t)
           then identAfterKw ((c :: t).drop 8) else none) with
    | some r => some r
    | none => searchFunctionKw t

/-- One attempt of the pattern const, whitespace-plus, identifier,
whitespace-star, equals, whitespace-star, open-paren. -/
def tryConstAt (s : List Char) : Option (List Char) :=
  if "const".toList.isPrefixOf s then
    match identAfterKwR (s.drop 5) with
    | none => none
    | some (id0, rest) =>
      match rest.dropWhile isWSC with
      | '=' :: r3 =>
        match r3.dropWhile isWSC with
        | '(' :: _ => some id0
        | _ => none
      | _ => none
  else none

def searchConst : List Char → Option (List Char)
  | [] => none
  | c :: t =>
    match tryConstAt (c :: t) with
    | some r => some r
    | none => searchConst t

/-- One attempt of the C-like signature pattern identifier, whitespace-star,
open-paren, non-close-paren-star, close-paren, whitespace-star, open-brace. -/
def tryCSigAt (s : List Char) : Option (List Char) :=
  match s with
  | [] => none
  | c :: t =>
    if c.isAlpha || c = '_' then
      let id0 := c :: t.takeWhile isWordC
      match (t.dropWhile isWordC).dropWhile isWSC with
      | '(' :: r2 =>
        match r2.dropWhile (fun d => d ≠ ')') with
        | ')' :: r3 =>
          match r3.dropWhile isWSC with
          | '\x7b' :: _ => some id0
          | _ => none
        | _ => none
      | _ => none
    else none

def searchCSig : List Char → Option (List Char)
  | [] => none
  | c :: t =>
    match tryCSigAt (c :: t) with
    | some r => some r
    | none => searchCSig t

/-- Source: extract_name_from_code (step3_setup_rag.py lines 68-87): the four
regexes tried in order, returning the captured identifier of the first that
hits. -/
def extract_name_from_code : Option String → Option String
  | none => none
  | some code =>
    if code.toList.isEmpty then none
    else
      match searchDefClass code.toList with
      | some r => some ⟨r⟩
      | none =>
        match searchFunctionKw code.toList with
        | some r => some ⟨r⟩
        | none =>
          match searchConst code.toList with
          | some r => some ⟨r⟩
          | none => (searchCSig code.toList).map (fun l => ⟨l⟩)

/-- Source: make_display_name (step3_setup_rag.py lines 89-104). -/
def make_display_name (raw_name full_name code : Option String) (method_id : Int) : String :=
  if pyTruthyS raw_name && !(is_synthetic raw_name) then
    ⟨pyStripL (raw_name.getD "").toList⟩
  else
    match (if pyTruthyS full_name then lastNonSynthTok (full_name.getD "") else none) with
    | some t => t
    | none =>
      match extract_name_from_code code with
      | some ex =>
        if pyTruthyS (some ex) && !(is_synthetic (some ex)) then ex
        else "method_" ++ toString method_id
      | none => "method_" ++ toString method_id

/-! ## step3_setup_rag.py: AST-derived features (lines 109-155)

Parsing itself is delegated to the external Python ast module; the parse
result is an oracle parameter, with none standing for a raised parse error.
The tree is modelled with exactly the node kinds the feature extractor
inspects; every other node kind is otherN.  ast.walk is breadth-first. -/

inductive PyNode : Type where
  | functionDef (name : String) (nargs : Nat) (children : List PyNode)
  | asyncFunctionDef (name : String) (nargs : Nat) (children : List PyNode)
  | callN (funcName : Option String) (children : List PyNode)
  | ifN (children : List PyNode)
  | forN (children : List PyNode)
  | whileN (children : List PyNode)
  | returnN (children : List PyNode)
  | awaitN (children : List PyNode)
  | otherN (children : List PyNode)

def PyNode.children : PyNode → List PyNode
  | .functionDef _ _ cs => cs
  | .asyncFunctionDef _ _ cs => cs
  | .callN _ cs => cs
  | .ifN cs => cs
  | .forN cs => cs
  | .whileN cs => cs
  | .returnN cs => cs
  | .awaitN cs => cs
  | .otherN cs => cs

mutual

def PyNode.sz : PyNode → Nat
  | .functionDef _ _ cs => 1 + szL cs
  | .asyncFunctionDef _ _ cs => 1 + szL cs
  | .callN _ cs => 1 + szL cs
  | .ifN cs => 1 + szL cs
  | .forN cs => 1 + szL cs
  | .whileN cs => 1 + szL cs
  | .returnN cs => 1 + szL cs
  | .awaitN cs => 1 + szL cs
  | .otherN cs => 1 + szL cs

def szL : List PyNode → Nat
  | [] => 0
  | n :: t => PyNode.sz n + szL t

end

theorem szL_append (a b : List PyNode) : szL (a ++ b) = szL a + szL b := by
  induction a with
  | nil => simp [szL]
  | cons n t ih => simp [szL, ih]; ring

theorem children_sz_lt (n : PyNode) : szL n.children < PyNode.sz n := by
  cases n <;> simp [PyNode.children, PyNode.sz]

/-- Breadth-first traversal, as ast.walk performs (a FIFO of pending nodes,
children appended at the back). -/
def walkBFS : List PyNode → List PyNode
  | [] => []
  | n :: q => n :: walkBFS (q ++ n.children)
  termination_by q => szL q
  decreasing_by
    rw [szL_append]
    have := children_sz_lt n
    simp [szL]
    omega

def PyNode.isFuncDef : PyNode → Bool
  | .functionDef _ _ _ => true
  | .asyncFunctionDef _ _ _ => true
  | _ => false

def PyNode.fdName : PyNode → Option String
  | .functionDef nm _ _ => some nm
  | .asyncFunctionDef nm _ _ => some nm
  | _ => none

def PyNode.fdNargs : PyNode → Nat
  | .functionDef _ na _ => na
  | .asyncFunctionDef _ na _ => na
  | _ => 0

def PyNode.isCall : PyNode → Bool
  | .callN _ _ => true
  | _ => false

def PyNode.isIf : PyNode → Bool
  | .ifN _ => true
  | _ => false

def PyNode.isLoop : PyNode → Bool
  | .forN _ => true
  | .whileN _ => true
  | _ => false

def PyNode.isReturn : PyNode → Bool
  | .returnN _ => true
  | _ => false

def PyNode.isAwait : PyNode → Bool
  | .awaitN _ => true
  | _ => false

/-- The crude I/O detection: a call whose callee is a bare name among
open, read, write, send, recv. -/
def PyNode.isIOCall : PyNode → Bool
  | .callN (some f) _ =>
    f = "open" || f = "read" || f = "write" || f = "send" || f = "recv"
  | _ => false

def PyNode.callsName (fname : String) : PyNode → Bool
  | .callN (some f) _ => f = fname
  | _ => false

structure AstFeatures where
  num_calls : Nat
  num_branches : Nat
  num_loops : Nat
  num_returns : Nat
  num_args : Option Nat
  uses_recursion : Bool
  num_awaits : Nat
  uses_io : Bool
deriving DecidableEq, Repr

/-- The initial feature dictionary of ast_features_from_code: counts zero,
booleans false, and num_args the Python None. -/
def astFeaturesDefault : AstFeatures :=
  { num_calls := 0, num_branches := 0, num_loops := 0, num_returns := 0,
    num_args := none, uses_recursion := false, num_awaits := 0, uses_io := false }

/-- Source: ast_features_from_code (step3_setup_rag.py lines 109-155).
Empty code or a parse failure returns the initial dictionary unchanged. -/
def ast_features_from_code (parse : String → Option PyNode) (code : String) : AstFeatures :=
  if code.toList.isEmpty then astFeaturesDefault
  else
    match parse code with
    | none => astFeaturesDefault
    | some tree =>
      let w := walkBFS [tree]
      let func_defs := w.filter PyNode.isFuncDef
      { num_calls := (w.filter PyNode.isCall).length
        num_branches := (w.filter PyNode.isIf).length
        num_loops := (w.filter PyNode.isLoop).length
        num_returns := (w.filter PyNode.isReturn).length
        num_args := some (match func_defs.head? with
          | some fd => fd.fdNargs
          | none => 0)
        uses_recursion := func_defs.any (fun fd =>
          match fd.fdName with
          | some nm => (walkBFS [fd]).any (PyNode.callsName nm)
          | none => false)
        num_awaits := (w.filter PyNode.isAwait).length
        uses_io := w.any PyNode.isIOCall }

/-! ## step3_setup_rag.py: fault features (lines 367-382) -/

structure FaultFeatures where
  has_null_checks : Bool
  has_exception_handling : Bool
  unsafe_operations : List String
deriving DecidableEq, Repr

/-- Boundary test used by the regex word-boundary before a word character. -/
def boundaryB : Option Char → Bool
  | none => true
  | some c => !(isWordC c)

/-- Boundary after a match: end of string or a non-word character. -/
def boundaryAfterB (s : List Char) : Bool :=
  match s with
  | [] => true
  | c :: _ => !(isWordC c)

/-- Alternative one of the null-check regex at a fixed position:
word-boundary, is, whitespace-plus, none, word-boundary. -/
def matchIsNoneAt (pre : Option Char) (s : List Char) : Bool :=
  boundaryB pre && "is".toList.isPrefixOf s &&
    (let r := s.drop 2
     let ws := r.takeWhile isWSC
     !ws.isEmpty && "none".toList.isPrefixOf (r.drop ws.length)
       && boundaryAfterB ((r.drop ws.length).drop 4))

/-- One-or-more non-newline characters followed by the literal none. -/
def dotPlusNone : List Char → Bool
  | [] => false
  | c :: t => c ≠ '\n' && ("none".toList.isPrefixOf t || dotPlusNone t)

/-- Alternative two of the null-check regex at a fixed position:
word-bounded not, then dot-plus, then none. -/
def matchNotNoneAt (pre : Option Char) (s : List Char) : Bool :=
  boundaryB pre && "not".toList.isPrefixOf s && boundaryAfterB (s.drop 3)
    && dotPlusNone (s.drop 3)

/-- Search of the alternation over all start positions, tracking the
preceding character for the word boundaries. -/
def hasNullCheckGo (pre : Option Char) : List Char → Bool
  | [] => false
  | c :: t =>
    matchIsNoneAt pre (c :: t) || matchNotNoneAt pre (c :: t)
      || hasNullCheckGo (some c) t

/-- Source: RAGSetup.fault_features (step3_setup_rag.py lines 367-382),
applied to the lowered code text.  The shell=True check keeps its original
capital T, as in the source, although the text it is tested against has
already been lowered. -/
def fault_features (code0 : String) : FaultFeatures :=
  let code := pyLower code0.toList
  { has_null_checks := hasNullCheckGo none code
    has_exception_handling := isSubB "try:".toList code || isSubB "except".toList code
    unsafe_operations :=
      (if isSubB "eval(".toList code then ["eval"] else [])
      ++ (if isSubB "exec(".toList code then ["exec"] else [])
      ++ (if isSubB "pickle.load".toList code || isSubB "pickle.loads".toList code
          then ["pickle"] else [])
      ++ (if isSubB "subprocess".toList code || isSubB "shell=True".toList code
          then ["subprocess/shell"] else []) }

/-! ## Python dict model

A dict is an association list of its items in iteration order; assignment
replaces the value in place (keeping the key position) or appends a fresh
entry, exactly the observable Python semantics. -/

def dictGet {κ β : Type} [DecidableEq κ] (d : List (κ × β)) (k : κ) : Option β :=
  (d.find? (fun p => decide (p.1 = k))).map (fun p => p.2)

def dictSet {κ β : Type} [DecidableEq κ] (d : List (κ × β)) (k : κ) (v : β) : List (κ × β) :=
  if (d.find? (fun p => decide (p.1 = k))).isSome then
    d.map (fun p => if p.1 = k then (k, v) else p)
  else d ++ [(k, v)]

/-- defaultdict(list) append. -/
def dictAppend {κ β : Type} [DecidableEq κ] (d : List (κ × List β)) (k : κ) (v : β) :
    List (κ × List β) :=
  match dictGet d k with
  | some old => dictSet d k (old ++ [v])
  | none => d ++ [(k, [v])]

/-! ## step3_setup_rag.py: graph index (lines 260-274) -/

structure CpgNode where
  id : Option Int
  name : Option String
  fullName : Option String
  filename : Option String
deriving DecidableEq, Repr

structure CpgEdge where
  src : Option Int
  dst : Option Int
  label : Option String
deriving DecidableEq, Repr

structure GraphIndex where
  id_to_node : List (Int × CpgNode)
  outgoing : List (Int × List (Int × String))
  incoming : List (Int × List (Int × String))
deriving DecidableEq, Repr

/-- Edge label normalisation: (e.get(label) or empty).upper(). -/
def edgeLab (e : CpgEdge) : String := ⟨pyUpper (e.label.getD "").toList⟩

/-- Source: RAGSetup.build_graph_index (step3_setup_rag.py lines 260-274).
Nodes without an id are skipped; later nodes with a repeated id overwrite
the map entry; edges are recorded whenever both endpoint ids are present,
with no check that they resolve in the node map. -/
def build_graph_index (nodes : List CpgNode) (edges : List CpgEdge) : GraphIndex :=
  { id_to_node := nodes.foldl
      (fun acc n => match n.id with
        | some nid => dictSet acc nid n
        | none => acc) []
    outgoing := edges.foldl
      (fun acc e => match e.src, e.dst with
        | some s, some d => dictAppend acc s (d, edgeLab e)
        | _, _ => acc) []
    incoming := edges.foldl
      (fun acc e => match e.src, e.dst with
        | some s, some d => dictAppend acc d (s, edgeLab e)
        | _, _ => acc) [] }

/-! ## step3_setup_rag.py: graph_context (lines 320-364) -/

/-- One neighbour record of graph_context: id, name-or-fullName, filename. -/
structure GCEntry where
  id : Int
  name : Option String
  filename : Option String
deriving DecidableEq, Repr

/-- Python truthiness fallback between two optional strings. -/
def pyOrOS (a b : Option String) : Option String :=
  if pyTruthyS a then a else b

/-- All ids that occur as an adjacency target anywhere in an adjacency map;
every id the walk can ever enqueue beyond the seed lies in this set, which
gives the termination measure of the bounded walk. -/
def adjTargets (adj : List (Int × List (Int × String))) : Finset Int :=
  ((adj.map (fun p => p.2.map Prod.fst)).flatten).toFinset

theorem mem_adjTargets {adj : List (Int × List (Int × String))} {nid : Int}
    {l : List (Int × String)} {d : Int} {lab : String}
    (h : dictGet adj nid = some l) (hm : (d, lab) ∈ l) : d ∈ adjTargets adj := by
  simp only [dictGet] at h
  cases hf : adj.find? (fun p => decide (p.1 = nid)) with
  | none => simp [hf] at h
  | some p =>
    simp only [hf] at h
    simp at h
    have hmem := List.mem_of_find?_eq_some hf
    unfold adjTargets
    simp only [List.mem_toFinset, List.mem_flatten, List.mem_map]
    refine ⟨p.2.map Prod.fst, ⟨p, hmem, rfl⟩, ?_⟩
    rw [h]
    exact List.mem_map_of_mem Prod.fst hm

/-- The body of one outer iteration of a graph_context walk: scans the
adjacency list of the popped node, and for each CALL edge to an unvisited id
marks it visited, emits an entry when the id resolves in the node map, and
enqueues it one level deeper. -/
def gcProcess (byId : List (Int × CpgNode)) (lv : Nat) :
    List (Int × String) → Finset Int → List GCEntry → List (Int × Nat) →
    Finset Int × List GCEntry × List (Int × Nat)
  | [], vis, acc, nq => (vis, acc, nq)
  | (nb, lab) :: rest, vis, acc, nq =>
    if lab = "CALL" ∧ nb ∉ vis then
      let acc2 := match dictGet byId nb with
        | some node => acc ++ [⟨nb, pyOrOS node.name node.fullName, node.filename⟩]
        | none => acc
      gcProcess byId lv rest (insert nb vis) acc2 (nq ++ [(nb, lv + 1)])
    else gcProcess byId lv rest vis acc nq

theorem gcProcess_measure (byId : List (Int × CpgNode)) (lv : Nat) (T : Finset Int) :
    ∀ (neighbors : List (Int × String)) (vis : Finset Int) (acc : List GCEntry)
      (nq : List (Int × Nat)),
      (∀ nb lab, (nb, lab) ∈ neighbors → nb ∈ T) →
      (T \ (gcProcess byId lv neighbors vis acc nq).1).card
        + (gcProcess byId lv neighbors vis acc nq).2.2.length
      ≤ (T \ vis).card + nq.length := by
  intro neighbors
  induction neighbors with
  | nil => intro vis acc nq _; simp [gcProcess]
  | cons hd rest ih =>
    intro vis acc nq h
    obtain ⟨nb, lab⟩ := hd
    by_cases hc : lab = "CALL" ∧ nb ∉ vis
    · simp only [gcProcess, if_pos hc]
      have hT : nb ∈ T := h nb lab (List.mem_cons_self _ _)
      have hstep := ih (insert nb vis)
        (match dictGet byId nb with
         | some node => acc ++ [⟨nb, pyOrOS node.name node.fullName, node.filename⟩]
         | none => acc)
        (nq ++ [(nb, lv + 1)])
        (fun x y hxy => h x y (List.mem_cons_of_mem _ hxy))
      refine le_trans hstep ?_
      have hsd : T \ insert nb vis = (T \ vis).erase nb := by
        ext x
        simp only [Finset.mem_sdiff, Finset.mem_insert, Finset.mem_erase]
        tauto
      rw [hsd, List.length_append]
      have hmem : nb ∈ T \ vis := Finset.mem_sdiff.mpr ⟨hT, hc.2⟩
      have hcard : ((T \ vis).erase nb).card = (T \ vis).card - 1 :=
        Finset.card_erase_of_mem hmem
      have hpos : 1 ≤ (T \ vis).card := Finset.card_pos.mpr ⟨nb, hmem⟩
      simp only [List.length_cons, List.length_nil]
      omega
    · simp only [gcProcess, if_neg hc]
      exact ih vis acc nq (fun x y hxy => h x y (List.mem_cons_of_mem _ hxy))

/-- The outer FIFO loop of a graph_context walk. -/
def gcLoop (byId : List (Int × CpgNode)) (adj : List (Int × List (Int × String)))
    (depth : Nat) :
    Finset Int → List (Int × Nat) → List GCEntry → List GCEntry
  | _, [], acc => acc
  | vis, (nid, lv) :: qrest, acc =>
    if lv ≥ depth then gcLoop byId adj depth vis qrest acc
    else
      let r := gcProcess byId lv ((dictGet adj nid).getD []) vis acc []
      gcLoop byId adj depth r.1 (qrest ++ r.2.2) r.2.1
  termination_by vis q _ => (adjTargets adj \ vis).card + q.length
  decreasing_by
  · simp only [List.length_cons]
    omega
  · have hnb : ∀ nb lab, (nb, lab) ∈ (dictGet adj nid).getD [] → nb ∈ adjTargets adj := by
      intro nb lab hm
      cases hg : dictGet adj nid with
      | none => rw [hg] at hm; simp at hm
      | some l => rw [hg] at hm; exact mem_adjTargets hg hm
    have := gcProcess_measure byId lv (adjTargets adj) ((dictGet adj nid).getD [])
      vis acc [] hnb
    simp only [List.length_nil, List.length_append, List.length_cons] at *
    omega

structure GraphContext where
  calls : List GCEntry
  called_by : List GCEntry
deriving DecidableEq, Repr

/-- Source: RAGSetup.graph_context (step3_setup_rag.py lines 320-364): two
independent bounded breadth-first walks restricted to CALL edges, outgoing
for calls and incoming for called_by, each with a fresh visited set; an
unresolved neighbour id is still visited and enqueued but emits no entry. -/
def graph_context (gi : GraphIndex) (method_id : Int) (depth : Nat) : GraphContext :=
  { calls := gcLoop gi.id_to_node gi.outgoing depth ∅ [(method_id, 0)] []
    called_by := gcLoop gi.id_to_node gi.incoming depth ∅ [(method_id, 0)] [] }

/-! ## step3_setup_rag.py: extract_full_code (lines 277-317) -/

/-- Python str.splitlines, modelled on newline characters (the source texts
the pipeline reads are newline-separated). -/
def splitNlGo (cur : List Char) : List Char → List (List Char)
  | [] => [cur.reverse]
  | c :: t => if c = '\n' then cur.reverse :: splitNlGo [] t else splitNlGo (c :: cur) t

def pySplitlines (l : List Char) : List (List Char) :=
  if l.isEmpty then []
  else
    let parts := splitNlGo [] l
    if l.getLast? = some '\n' then parts.dropLast else parts

/-- Python pathlib name: the component after the last slash (pipeline
filenames carry no trailing slash). -/
def basenameStr (s : String) : String :=
  ⟨((s.toList.reverse.takeWhile (fun c => c ≠ '/')).reverse)⟩

/-- Python str.endswith. -/
def endsWithB (hay suf : List Char) : Bool := suf.isSuffixOf hay

/-- Python int truthiness. -/
def pyTruthyI : Option Int → Bool
  | none => false
  | some n => n ≠ 0

/-- The source-lookup chain of extract_full_code: exact key, basename key,
then the first partial match (either endswith direction) in dict order. -/
def locate_src (source_files : List (String × String)) (filename : String) :
    Option String :=
  match dictGet source_files filename with
  | some s => some s
  | none =>
    match dictGet source_files (basenameStr filename) with
    | some s => some s
    | none =>
      (source_files.find? (fun kv =>
        endsWithB filename.toList kv.1.toList || endsWithB kv.1.toList filename.toList)).map
        (fun kv => kv.2)

/-- The stop test of the block-expansion scan: the line hits the
regex whitespace-star, def-or-class, whitespace-plus at its start. -/
def lineStartsDefClass (ln : List Char) : Bool :=
  let b := ln.dropWhile isWSC
  ("def".toList.isPrefixOf b && (b.drop 3).head?.any isWSC)
  || ("class".toList.isPrefixOf b && (b.drop 5).head?.any isWSC)

/-- The block-expansion scan of extract_full_code: walks the candidate line
indices in order, stopping before the first sibling def/class at
equal-or-lower indentation, and returns the last index kept. -/
def blockEndGo (lines : List (List Char)) (si : Nat) : List Nat → Nat → Nat
  | [], e => e
  | i :: rest, e =>
    let ln := lines.getD i []
    if lineStartsDefClass ln && decide ((ln.takeWhile isWSC).length ≤ si) then e
    else blockEndGo lines si rest i

/-- Raw method record, as read from methods.json; only the keys the
enrichment pass reads are modelled. -/
structure MethodNode where
  id : Option Int
  name : Option String
  fullName : Option String
  filename : Option String
  file : Option String
  lineNumber : Option Int
  line_number : Option Int
  code : Option String
  signature : Option String
deriving DecidableEq, Repr

/-- Python join by newline. -/
def joinNl (ls : List (List Char)) : List Char := (ls.intersperse ['\n']).flatten

/-- The filename a method is looked up under: filename, else file, else
empty, by Python truthiness. -/
def methodFilename (m : MethodNode) : String :=
  if pyTruthyS m.filename then m.filename.getD ""
  else if pyTruthyS m.file then m.file.getD "" else ""

/-- Source: RAGSetup.extract_full_code (step3_setup_rag.py lines 277-317). -/
def extract_full_code (source_files : List (String × String)) (m : MethodNode) : String :=
  let filename : String := methodFilename m
  let line : Int :=
    if pyTruthyI m.lineNumber then m.lineNumber.getD 0
    else if pyTruthyI m.line_number then m.line_number.getD 0 else 0
  match locate_src source_files filename with
  | none => m.code.getD ""
  | some src =>
    if line ≤ 0 then src
    else
      let lines := pySplitlines src.toList
      let idx := (line - 1).toNat
      if idx ≥ lines.length then m.code.getD ""
      else
        let startLn := lines.getD idx []
        let si := (startLn.takeWhile isWSC).length
        let e := blockEndGo lines si
          (List.range' (idx + 1) (min (idx + 500) lines.length - (idx + 1))) idx
        let joined := joinNl ((lines.drop idx).take (e - idx + 1))
        if joined.isEmpty then m.code.getD "" else ⟨joined⟩

/-! ## step3_setup_rag.py: enrich_methods (lines 385-422) -/

structure EnrichedMethod where
  id : Int
  display_name : String
  name : String
  filename : Option String
  lineNumber : Int
  full_code : String
  calls : List (Option String)
  called_by : List (Option String)
  calls_full : List GCEntry
  called_by_full : List GCEntry
  fault_features : FaultFeatures
  ast_features : AstFeatures
  orig_fullName : Option String
  orig_signature : String
deriving DecidableEq, Repr

/-- Source: the loop body of RAGSetup.enrich_methods (step3_setup_rag.py
lines 388-419); parse is the external Python ast parser oracle. -/
def enrichOne (gi : GraphIndex) (source_files : List (String × String))
    (parse : String → Option PyNode) (graph_depth : Nat) (m : MethodNode) :
    EnrichedMethod :=
  let mid : Int := if pyTruthyI m.id then m.id.getD 0 else 0
  let code := extract_full_code source_files m
  let ctx := graph_context gi mid graph_depth
  let disp := make_display_name m.name m.fullName (some code) mid
  { id := mid
    display_name := disp
    name := disp
    filename := m.filename
    lineNumber := if pyTruthyI m.lineNumber then m.lineNumber.getD 0 else 0
    full_code := code
    calls := ctx.calls.map (fun c => c.name)
    called_by := ctx.called_by.map (fun c => c.name)
    calls_full := ctx.calls
    called_by_full := ctx.called_by
    fault_features := fault_features code
    ast_features := ast_features_from_code parse code
    orig_fullName := m.fullName
    orig_signature := m.signature.getD "" }

/-- Source: RAGSetup.enrich_methods (step3_setup_rag.py lines 385-422): one
enriched record per method, in input order; no method is ever dropped. -/
def enrich_methods (gi : GraphIndex) (source_files : List (String × String))
    (parse : String → Option PyNode) (graph_depth : Nat)
    (methods : List MethodNode) : List EnrichedMethod :=
  methods.map (enrichOne gi source_files parse graph_depth)

/-! ## step4_query_rag.py: documents, metadata and results -/

/-- A Python value that is either an int or a string, as stored in the
line field of a source citation. -/
inductive JVal : Type where
  | i (n : Int)
  | s (v : String)
deriving DecidableEq, Repr

def jvalStr : JVal → String
  | .i n => toString n
  | .s v => v

/-- Metadata dictionary of a retrieved or synthesised document.  A none
field stands for a key the dictionary does not carry (the pipeline always
writes display_name, filename, line_number and method_id as strings or
ints); such a field renders as a question mark in fusion keys, as a missing
key does in the source. -/
structure DocMeta where
  display_name : Option String
  name : Option String
  filename : Option String
  line_number : Option Int
  lineNumber : Option Int
  method_id : Option Int
deriving DecidableEq, Repr

structure Doc where
  page_content : String
  metadata : DocMeta
deriving DecidableEq, Repr

/-- One entry of the sources list of a query result. -/
structure SourceRef where
  function : String
  file : Option String
  line : JVal
deriving DecidableEq, Repr

/-- The result dictionary returned by EnhancedRAGQueryEngine.query; the
literal-lookup result carries no question key, hence the option. -/
structure QueryResult where
  answer : String
  sources : List SourceRef
  query_type : String
  question : Option String
deriving DecidableEq, Repr

/-- The per-candidate accumulation key of _merge_and_score and
_graph_expand: filename, line and display name joined by colons, with a
question mark for a missing field. -/
def fuseKey (md : DocMeta) : String :=
  (md.filename.getD "?") ++ ":"
    ++ (match md.line_number with | some n => toString n | none => "?") ++ ":"
    ++ (md.display_name.getD "?")

/-! ## step4_query_rag.py: query preprocessing and type detection -/

/-- Word-boundary match of one literal word at a fixed position, given the
preceding character. -/
def wordBoundedAt (pre : Option Char) (w : List Char) (s : List Char) : Bool :=
  w.isPrefixOf s && boundaryB pre && boundaryAfterB (s.drop w.length)

/-- Search of a word-bounded alternation over all positions. -/
def hasWordB (ws : List (List Char)) : Option Char → List Char → Bool
  | pre, [] => ws.any (fun w => wordBoundedAt pre w [])
  | pre, c :: t => ws.any (fun w => wordBoundedAt pre w (c :: t)) || hasWordB ws (some c) t

/-- The four overview regexes of _preprocess_query (lines 177-182), each a
word-bounded alternation or phrase. -/
def overviewPats : List (List (List Char)) :=
  [ ["overview".toList, "summary".toList, "summarize".toList,
     "describe".toList, "explain".toList],
    ["project structure".toList],
    ["main components".toList],
    ["key functions".toList] ]

def listingWords : List (List Char) :=
  ["list".toList, "show".toList, "find".toList, "which".toList, "what".toList]

structure Preprocessed where
  original : String
  clean : String
  is_valid : Bool
  is_overview : Bool
  is_listing : Bool
  specific_entity : Option String
deriving DecidableEq, Repr

/-- Source: EnhancedRAGQueryEngine._preprocess_query (step4_query_rag.py
lines 165-192). -/
def _preprocess_query (query : String) : Preprocessed :=
  let q : String := ⟨pyStripL query.toList⟩
  let ql := pyLower q.toList
  { original := query
    clean := q
    is_valid := decide (3 ≤ q.toList.length)
    is_overview := overviewPats.any (fun ws => hasWordB ws none ql)
    is_listing := hasWordB listingWords none ql
    specific_entity := extract_quoted q }

def fault_keywords : List String :=
  ["vulnerab", "injection", "xss", "csrf", "unsafe", "exploit",
   "bug", "leak", "overflow", "race", "deadlock", "sanitize",
   "validation", "attack", "security", "eval(", "exec(", "pickle", "subprocess"]

def structural_keywords : List String :=
  ["call graph", "who calls", "called by", "calls", "caller", "callee",
   "dependency", "depends on", "data flow", "control flow", "pipeline",
   "path", "trace", "used in", "imports"]

/-- Source: EnhancedRAGQueryEngine._detect_query_type (step4_query_rag.py
lines 197-216). -/
def _detect_query_type (query : String) (meta : Preprocessed) : String :=
  if meta.is_overview then "overview"
  else
    let q := pyLower query.toList
    if fault_keywords.any (fun w => isSubB w.toList q) then "fault"
    else if structural_keywords.any (fun w => isSubB w.toList q) then "structural"
    else "semantic"

/-! ## step4_query_rag.py: literal lookup (lines 221-252) -/

/-- The literal token of a query: a quoted substring, else the first
angle-bracket-delimited token. -/
def literalTokenOf (question : String) : Option String :=
  match extract_quoted question with
  | some l => some l
  | none => (findAngle question.toList).map (fun l => ⟨l⟩)

/-- The name a method is matched against in the literal lookup:
display_name, else name, else empty. -/
def litMatchName (m : EnrichedMethod) : String :=
  if pyTruthyS (some m.display_name) then m.display_name
  else if pyTruthyS (some m.name) then m.name else ""

/-- The name a matched method is displayed under: display_name, else name. -/
def litDispName (m : EnrichedMethod) : String :=
  if pyTruthyS (some m.display_name) then m.display_name else m.name

def litLine (m : EnrichedMethod) : JVal :=
  if m.lineNumber ≠ 0 then JVal.i m.lineNumber else JVal.s "?"

def litSource (m : EnrichedMethod) : SourceRef :=
  { function := litDispName m, file := m.filename, line := litLine m }

def joinWith (sep : String) (xs : List String) : String :=
  ⟨((xs.map String.toList).intersperse sep.toList).flatten⟩

/-- The two answer fragments built for one matched method: the numbered
header line, and the indented six-line snippet when the code is nonempty. -/
def litItem (i : Nat) (m : EnrichedMethod) : List String :=
  let nm := litDispName m
  let fnameR := match m.filename with | some s => s | none => "None"
  let head := "\n" ++ toString i ++ ". " ++ nm ++ " (" ++ fnameR ++ ":"
    ++ jvalStr (litLine m) ++ ")"
  let snippet := (pySplitlines (pyStripL m.full_code.toList)).map
    (fun l => (⟨l⟩ : String))
  head :: (if snippet.isEmpty then []
           else ["\n    " ++ joinWith "\n    " (snippet.take 6)])

def enumFrom (n : Nat) : List α → List (Nat × α)
  | [] => []
  | x :: t => (n, x) :: enumFrom (n + 1) t

/-- Source: EnhancedRAGQueryEngine._literal_lookup (step4_query_rag.py lines
221-252): none when the query carries no literal token, otherwise a full
result — also when zero methods match. -/
def _literal_lookup (enriched : List EnrichedMethod) (question : String) :
    Option QueryResult :=
  match literalTokenOf question with
  | none => none
  | some literal =>
    let needle : List Char := pyLower (pyStripL literal.toList)
    let hits := enriched.filter (fun m => isSubB needle (pyLower (litMatchName m).toList))
    if hits.isEmpty then
      some { answer := "No method matching '<" ++ (⟨needle⟩ : String)
               ++ ">' found in this codebase."
             sources := [], query_type := "literal", question := none }
    else
      some { answer := joinWith "\n"
               (("Found " ++ toString hits.length ++ " function(s) matching '<"
                  ++ (⟨needle⟩ : String) ++ ">':\n")
                 :: ((enumFrom 1 (hits.take 20)).map (fun p => litItem p.1 p.2)).flatten)
             sources := (hits.take 20).map litSource
             query_type := "literal"
             question := none }

/-! ## step4_query_rag.py: rank fusion (lines 266-344) -/

/-- The three weight profiles of _merge_and_score and their selection by
query type; an unknown store name weighs zero. -/
def weightsFor (query_type : String) (store : String) : ℚ :=
  if query_type = "structural" then
    if store = "semantic" then 2/10
    else if store = "structural" then 6/10
    else if store = "fault" then 5/100
    else if store = "hybrid" then 15/100 else 0
  else if query_type = "fault" then
    if store = "semantic" then 1/10
    else if store = "structural" then 1/10
    else if store = "fault" then 6/10
    else if store = "hybrid" then 2/10 else 0
  else
    if store = "semantic" then 4/10
    else if store = "structural" then 25/100
    else if store = "fault" then 1/10
    else if store = "hybrid" then 25/100 else 0

/-- Identifier tokens of a query, per the regex letter-or-underscore
followed by one-or-more word characters (findall, non-overlapping): the
current partial token is carried reversed; a token shorter than two
characters is not a match. -/
def closeTok : Option (List Char) → List (List Char)
  | some tk => if 2 ≤ tk.length then [tk.reverse] else []
  | none => []

def identGo : Option (List Char) → List Char → List (List Char)
  | cur, [] => closeTok cur
  | none, c :: t =>
    if c.isAlpha || c = '_' then identGo (some [c]) t else identGo none t
  | some tk, c :: t =>
    if isWordC c then identGo (some (c :: tk)) t
    else closeTok (some tk) ++ identGo none t

def findIdentTokens (l : List Char) : List (List Char) := identGo none l

/-- The keyword list of the lexical re-rank: the fixed fault vocabulary for
fault queries, else the last ten identifier-like tokens of the lowered
query. -/
def keywordsFor (query : String) (query_type : String) : List String :=
  if query_type = "fault" then
    ["unsafe", "security", "validate", "sanitize", "error", "exception",
     "try", "handle", "pickle", "eval", "exec", "subprocess", "shell"]
  else
    let tokens := (findIdentTokens (pyLower query.toList)).map
      (fun l => (⟨l⟩ : String))
    if tokens.isEmpty then [] else tokens.drop (tokens.length - 10)

/-- The two accumulation dictionaries of _merge_and_score: candidate_scores
as an insertion-ordered key list with a score function, candidate_docs as a
first-write-wins document function. -/
structure MergeState where
  keys : List String
  score : String → ℚ
  docOf : String → Option Doc

def msInit : MergeState := ⟨[], fun _ => 0, fun _ => none⟩

/-- One occurrence of a key: add the weighted base score into
candidate_scores and keep the first-seen document. -/
def msAdd (st : MergeState) (key : String) (v : ℚ) (d : Doc) : MergeState :=
  { keys := if key ∈ st.keys then st.keys else st.keys ++ [key]
    score := fun k => if k = key then st.score k + v else st.score k
    docOf := fun k =>
      if k = key then
        match st.docOf key with
        | some d0 => some d0
        | none => some d
      else st.docOf k }

/-- One retrieved list: rank r of n scores max(0, 1 - r / max(1, n)). -/
def msDocs (w : ℚ) (n : Nat) : Nat → List Doc → MergeState → MergeState
  | _, [], st => st
  | r, d :: t, st =>
    let base : ℚ := max 0 (1 - (r : ℚ) / (max 1 n : ℚ))
    msDocs w n (r + 1) t (msAdd st (fuseKey d.metadata) (base * w) d)

def msAll (query_type : String) : List (String × List Doc) → MergeState → MergeState
  | [], st => st
  | (sn, docs) :: rest, st =>
    msAll query_type rest (msDocs (weightsFor query_type sn) docs.length 0 docs st)

/-- The keyword boost pass: each candidate gains 0.02 per keyword
occurrence in its kept document content. -/
def msBoost (st : MergeState) (keywords : List String) : String → ℚ :=
  fun k => st.score k + (match st.docOf k with
    | some d => (2 / 100 : ℚ) * (simple_keyword_score d.page_content keywords : ℚ)
    | none => 0)

/-- Descending order on scored keys, as Python sorted with reverse true. -/
def rankRel (a b : String × ℚ) : Prop := b.2 ≤ a.2

instance : DecidableRel rankRel := fun a b => inferInstanceAs (Decidable (b.2 ≤ a.2))

instance : IsTotal (String × ℚ) rankRel := ⟨fun a b => le_total b.2 a.2⟩

instance : IsTrans (String × ℚ) rankRel := ⟨fun _ _ _ h1 h2 => le_trans h2 h1⟩

/-- Source: EnhancedRAGQueryEngine._merge_and_score (step4_query_rag.py
lines 266-344): accumulate position-based weighted scores per fusion key
over every store list, boost by keyword occurrences in the first-seen
document, sort descending (stably, as Python sorted) and keep the first
three-times-top-k entries with their documents. -/
def _merge_and_score (retrieved : List (String × List Doc)) (query : String)
    (query_type : String) (top_k : Nat) : List (ℚ × Doc) :=
  let st := msAll query_type retrieved msInit
  let fs := msBoost st (keywordsFor query query_type)
  let ranked := (st.keys.map (fun k => (k, fs k))).insertionSort rankRel
  (ranked.take (top_k * 3)).filterMap (fun p => (st.docOf p.1).map (fun d => (p.2, d)))

/-! ## step4_query_rag.py: graph expansion (lines 349-413) -/

/-- method_by_id, as populated by initialize: one dict write per enriched
method keyed by its id, so for a repeated id the last-seen method wins. -/
def methodById (enriched : List EnrichedMethod) (k : Int) : Option EnrichedMethod :=
  enriched.reverse.find? (fun m => decide (m.id = k))

/-- The synthetic document emitted for an expansion neighbour. -/
def docOfMethod (nm : EnrichedMethod) : Doc :=
  { page_content := nm.full_code
    metadata := { display_name := some nm.display_name, name := none,
                  filename := nm.filename, line_number := some nm.lineNumber,
                  lineNumber := none, method_id := some nm.id } }

/-- The geometric decay applied to a neighbour found at the given depth:
parent score times 0.6 to the power depth plus one. -/
def decayScore (base : ℚ) (depth : Nat) : ℚ := base * (6 / 10) ^ (depth + 1)

/-- The neighbour candidates of one popped method: ids of the first fifty
calls_full then the first fifty called_by_full entries, keeping nonzero ids
not yet in the visited set (the filter is evaluated against the visited set
as of before the inner loop, so an id on both lists appears twice). -/
def geNeighbors (seen : Finset Int) (method : EnrichedMethod) : List Int :=
  (method.calls_full.take 50).filterMap
    (fun c => if c.id ≠ 0 ∧ c.id ∉ seen then some c.id else none)
  ++ (method.called_by_full.take 50).filterMap
    (fun c => if c.id ≠ 0 ∧ c.id ∉ seen then some c.id else none)

/-- The inner for-loop of _graph_expand: marks each neighbour visited,
emits a decayed synthetic document and re-enqueues it when it resolves, and
breaks as soon as the added count reaches max_add. -/
def expandNeighbors (byId : Int → Option EnrichedMethod) (base : ℚ) (depth : Nat)
    (max_add : Nat) :
    List Int → Finset Int → List (ℚ × Doc) → List (Int × ℚ × Nat) →
    Finset Int × List (ℚ × Doc) × List (Int × ℚ × Nat)
  | [], seen, added, nq => (seen, added, nq)
  | nid :: rest, seen, added, nq =>
    let seen2 := insert nid seen
    match byId nid with
    | none => expandNeighbors byId base depth max_add rest seen2 added nq
    | some nm =>
      let added2 := added ++ [(decayScore base depth, docOfMethod nm)]
      let nq2 := nq ++ [(nid, decayScore base depth, depth + 1)]
      if max_add ≤ added2.length then (seen2, added2, nq2)
      else expandNeighbors byId base depth max_add rest seen2 added2 nq2

theorem expandNeighbors_added_le (byId : Int → Option EnrichedMethod) (base : ℚ)
    (depth max_add : Nat) :
    ∀ (ns : List Int) (seen : Finset Int) (added : List (ℚ × Doc))
      (nq : List (Int × ℚ × Nat)),
      added.length ≤ (expandNeighbors byId base depth max_add ns seen added nq).2.1.length := by
  intro ns
  induction ns with
  | nil => intro seen added nq; simp [expandNeighbors]
  | cons nid rest ih =>
    intro seen added nq
    simp only [expandNeighbors]
    cases byId nid with
    | none => exact ih _ _ _
    | some nm =>
      simp only []
      split
      · simp
      · exact le_trans (by simp) (ih _ _ _)

theorem expandNeighbors_stuck (byId : Int → Option EnrichedMethod) (base : ℚ)
    (depth max_add : Nat) :
    ∀ (ns : List Int) (seen : Finset Int) (added : List (ℚ × Doc))
      (nq : List (Int × ℚ × Nat)),
      (expandNeighbors byId base depth max_add ns seen added nq).2.1.length = added.length →
      (expandNeighbors byId base depth max_add ns seen added nq).2.2 = nq := by
  intro ns
  induction ns with
  | nil => intro seen added nq _; simp [expandNeighbors]
  | cons nid rest ih =>
    intro seen added nq h
    simp only [expandNeighbors] at h ⊢
    cases hb : byId nid with
    | none =>
      simp only [hb] at h ⊢
      exact ih _ _ _ h
    | some nm =>
      simp only [hb] at h
      exfalso
      split at h
      · simp at h
      · have h2 := expandNeighbors_added_le byId base depth max_add rest
          (insert nid seen) (added ++ [(decayScore base depth, docOfMethod nm)])
          (nq ++ [(nid, decayScore base depth, depth + 1)])
        rw [h] at h2
        simp at h2

/-- The seed pass of _graph_expand: every scored document carrying a
nonzero method_id is enqueued at depth zero and marked visited. -/
def geSeeds (scored : List (ℚ × Doc)) : List (Int × ℚ × Nat) × Finset Int :=
  scored.foldl
    (fun acc p =>
      let mid := p.2.metadata.method_id.getD 0
      if mid ≠ 0 then (acc.1 ++ [(mid, p.1, 0)], insert mid acc.2) else acc)
    ([], ∅)

/-- The outer while-loop of _graph_expand: runs while the queue is nonempty
and fewer than max_add documents have been added; a popped entry at depth
at least hops, or with an unresolvable id, is discarded. -/
def geLoop (byId : Int → Option EnrichedMethod) (hops max_add : Nat) :
    Finset Int → List (Int × ℚ × Nat) → List (ℚ × Doc) → List (ℚ × Doc)
  | _, [], added => added
  | seen, (mid, base, depth) :: qrest, added =>
    if _hstop : max_add ≤ added.length then added
    else if hops ≤ depth then geLoop byId hops max_add seen qrest added
    else
      match byId mid with
      | none => geLoop byId hops max_add seen qrest added
      | some method =>
        let r := expandNeighbors byId base depth max_add
          (geNeighbors seen method) seen added []
        geLoop byId hops max_add r.1 (qrest ++ r.2.2) r.2.1
  termination_by _ q added => (max_add - added.length, q.length)
  decreasing_by
  · apply Prod.Lex.right
    simp
  · apply Prod.Lex.right
    simp
  · rcases Nat.lt_or_ge added.length
      (expandNeighbors byId base depth max_add (geNeighbors seen method) seen added []).2.1.length
      with hlt | hge
    · apply Prod.Lex.left
      omega
    · have heq : (expandNeighbors byId base depth max_add
          (geNeighbors seen method) seen added []).2.1.length = added.length := by
        have := expandNeighbors_added_le byId base depth max_add
          (geNeighbors seen method) seen added []
        omega
      have hnq := expandNeighbors_stuck byId base depth max_add
        (geNeighbors seen method) seen added [] heq
      rw [heq, hnq]
      apply Prod.Lex.right
      simp

/-- The expansion-added documents of one _graph_expand call, before the
merge with the original list. -/
def graphExpandAdded (byId : Int → Option EnrichedMethod) (scored : List (ℚ × Doc))
    (hops max_add : Nat) : List (ℚ × Doc) :=
  let s := geSeeds scored
  geLoop byId hops max_add s.2 s.1 []

/-- Descending order on scored documents. -/
def scoreRel (a b : ℚ × Doc) : Prop := b.1 ≤ a.1

instance : DecidableRel scoreRel := fun a b => inferInstanceAs (Decidable (b.1 ≤ a.1))

instance : IsTotal (ℚ × Doc) scoreRel := ⟨fun a b => le_total b.1 a.1⟩

instance : IsTrans (ℚ × Doc) scoreRel := ⟨fun _ _ _ h1 h2 => le_trans h2 h1⟩

/-- The final dedup of _graph_expand: first occurrence of each fusion key
wins in the sorted order. -/
def dedupByKey : List (ℚ × Doc) → List String → List (ℚ × Doc)
  | [], _ => []
  | (score, d) :: t, seenKeys =>
    let k := fuseKey d.metadata
    if k ∈ seenKeys then dedupByKey t seenKeys
    else (score, d) :: dedupByKey t (k :: seenKeys)

/-- Source: EnhancedRAGQueryEngine._graph_expand (step4_query_rag.py lines
349-413): bounded breadth-first expansion of the scored documents along
calls_full and called_by_full, then a stable descending re-sort of the
originals plus the added neighbours, deduplicated by fusion key. -/
def _graph_expand (byId : Int → Option EnrichedMethod) (scored : List (ℚ × Doc))
    (hops max_add : Nat) : List (ℚ × Doc) :=
  let combined := scored ++ graphExpandAdded byId scored hops max_add
  dedupByKey (combined.insertionSort scoreRel) []

/-! ## step4_query_rag.py: context assembly (lines 418-442) -/

def nameDisp (md : DocMeta) : String :=
  if pyTruthyS md.display_name then md.display_name.getD ""
  else if pyTruthyS md.name then md.name.getD "" else "?"

def fnameDisp (md : DocMeta) : String :=
  if pyTruthyS md.filename then md.filename.getD "" else "?"

def lineDisp (md : DocMeta) : JVal :=
  match md.line_number with
  | some n =>
    if n ≠ 0 then JVal.i n
    else match md.lineNumber with
      | some m => if m ≠ 0 then JVal.i m else JVal.s "?"
      | none => JVal.s "?"
  | none =>
    match md.lineNumber with
    | some m => if m ≠ 0 then JVal.i m else JVal.s "?"
    | none => JVal.s "?"

/-- One rendered context block and its source entry. -/
def pcbBlock (maxLen : Nat) (idx : Nat) (doc : Doc) : String × SourceRef :=
  let md := doc.metadata
  let nm := nameDisp md
  let fname := fnameDisp md
  let line := lineDisp md
  let content0 := doc.page_content
  let content :=
    if maxLen < content0.toList.length then
      (⟨content0.toList.take maxLen⟩ : String) ++ "\n\n... (truncated)"
    else content0
  ("[" ++ toString (idx + 1) ++ "] Function: " ++ nm
     ++ "\n    Location: " ++ fname ++ ":" ++ jvalStr line
     ++ "\n    Code:\n" ++ content ++ "\n",
   { function := nm, file := some fname, line := line })

def pcbGo (maxLen max_blocks : Nat) : List (ℚ × Doc) → Nat → List String × List SourceRef
  | [], _ => ([], [])
  | (_, doc) :: t, taken =>
    if max_blocks ≤ taken then ([], [])
    else
      let b := pcbBlock maxLen taken doc
      let r := pcbGo maxLen max_blocks t (taken + 1)
      (b.1 :: r.1, b.2 :: r.2)

/-- Source: EnhancedRAGQueryEngine._prepare_context_blocks
(step4_query_rag.py lines 418-442). -/
def _prepare_context_blocks (maxLen : Nat) (scored_docs : List (ℚ × Doc))
    (max_blocks : Nat) : String × List SourceRef :=
  let r := pcbGo maxLen max_blocks scored_docs 0
  (joinWith "\n" r.1, r.2)

/-! ## step4_query_rag.py: prompt building (lines 447-525) -/

def taskFault : String :=
  "\nTASK: Security & Fault Analysis\nAnalyze the provided code for:\n- Security vulnerabilities (injection, insecure deserialization, shell calls, unsafe eval/exec)\n- Missing input validation or sanitization\n- Error handling issues (missing try/except, unhandled exceptions)\n- Resource leaks or unsafe operations (pickle, subprocess, open without context manager)\n\nBe specific about:\n- What the vulnerability or issue is\n- Where it occurs (file:line)\n- Why it's dangerous\n- How to fix it (concrete code-level fixes)\n"

def taskStructural : String :=
  "\nTASK: Structural Analysis\nAnalyze relationships and dependencies:\n- Call graph (who calls what)\n- Data flow and key dependencies\n- Execution path highlights\n\nBe specific:\n- Provide direct call chains if possible (A -> B -> C)\n- Cite exact function names and locations\n"

def taskDefault : String :=
  "\nTASK: Code Behavior Analysis\nExplain what the code does and how it works, focusing on:\n- Key responsibilities of functions\n- Data structures and algorithms used\n- Any notable design patterns\n"

def strictRules : String :=
  "\nCRITICAL RULES:\n1. Base your answer ONLY on the provided code snippets in the context block.\n2. If information is not present in the provided snippets, explicitly state: \"Not found in provided code.\"\n3. DO NOT invent functionality or make assumptions beyond the provided code.\n4. Cite specific functions with format: function_name (file.py:line)\n5. Keep answers concise and include a short summary, then a detailed bullet list.\n"

def responseFormat : String :=
  "\nRESPONSE FORMAT:\n1) Short direct answer (1-3 sentences)\n2) Detailed analysis with bullet points\n3) Function citations: name (file:line)\n4) If insufficient evidence, state exactly: \"Not found in provided code.\"\n"

/-- Statistics loaded from codebase_stats.json in initialize; a none field
stands for an absent key, rendered by its Python get default. -/
structure TopFile where
  file : Option String
  loc : Option Int
  methods : Option Int
deriving DecidableEq, Repr

structure CodebaseStats where
  total_files : Option Int
  total_methods : Option Int
  total_lines : Option Int
  top_files_by_loc : List TopFile
deriving DecidableEq, Repr

def optIntDisp (dflt : String) : Option Int → String
  | some n => toString n
  | none => dflt

/-- Source: EnhancedRAGQueryEngine._get_project_overview (lines 522-525). -/
def _get_project_overview (stats : CodebaseStats) : String :=
  "Total Files: " ++ optIntDisp "?" stats.total_files
    ++ ", Total Methods: " ++ optIntDisp "?" stats.total_methods
    ++ ", Total Lines: " ++ optIntDisp "?" stats.total_lines

/-- Source: EnhancedRAGQueryEngine._build_prompt (lines 447-520): the fixed
grounding preamble around the question and the context, stripped. -/
def _build_prompt (stats : CodebaseStats) (question : String) (query_type : String)
    (context : String) : String :=
  let task :=
    if query_type = "fault" then taskFault
    else if query_type = "structural" then taskStructural
    else taskDefault
  ⟨pyStripL ("\nPROJECT CONTEXT:\n" ++ _get_project_overview stats ++ "\n\n"
    ++ task ++ "\n\n" ++ strictRules ++ "\n\nUSER QUESTION:\n" ++ question
    ++ "\n\nRETRIEVED CODE CONTEXT:\n" ++ context ++ "\n\n" ++ responseFormat
    ++ "\n\nAnswer:\n").toList⟩

/-! ## step4_query_rag.py: the engine and its query method -/

/-- The engine state after initialize has succeeded: the loaded enriched
methods and statistics, the four stores (none when a collection failed to
load), and the chat model, the last two as oracles.  provider_ok false
stands for the initialize path in which constructing the embeddings or chat
client, or the model smoke test, raised: query then propagates that
exception instead of producing a result.  jsonDump is the external
json.dumps used only by the overview handler. -/
structure FileSummary where
  file : Option String
  method_count : Nat
  sample_methods : List String
deriving DecidableEq, Repr

structure Engine where
  provider_ok : Bool
  stores : String → Option (String → Nat → Except String (List Doc))
  llm : String → Except String String
  enriched_methods : List EnrichedMethod
  codebase_stats : CodebaseStats
  jsonDump : List FileSummary → String
  TOP_K_RESULTS : Option Nat
  GRAPH_DEPTH : Option Int
  MAX_CODE_LENGTH : Nat

inductive EngineError : Type where
  | providerUnavailable
deriving DecidableEq, Repr

/-- Source: EnhancedRAGQueryEngine._retrieve_from_store (lines 257-264):
a missing store or a raised search error yields the empty list. -/
def _retrieve_from_store (store : Option (String → Nat → Except String (List Doc)))
    (query : String) (top_k : Nat) : List Doc :=
  match store with
  | none => []
  | some f =>
    match f query top_k with
    | .ok docs => docs
    | .error _ => []

/-- methods_by_file, as populated by initialize: a defaultdict keyed by the
filename value (possibly the Python None). -/
def methodsByFile (enriched : List EnrichedMethod) :
    List (Option String × List EnrichedMethod) :=
  enriched.foldl (fun acc m => dictAppend acc m.filename m) []

/-- Source: EnhancedRAGQueryEngine._handle_overview (lines 590-632). -/
def _handle_overview (eng : Engine) (question : String) : QueryResult :=
  let stats := eng.codebase_stats
  let top_files := stats.top_files_by_loc.take 10
  let file_summaries := (methodsByFile eng.enriched_methods).take 10 |>.map
    (fun p =>
      { file := p.1
        method_count := p.2.length
        sample_methods := (p.2.take 5).map (fun m =>
          if pyTruthyS (some m.display_name) then m.display_name else m.name) })
  let overview_context :=
    "\nSTATISTICS:\n- Total Files: " ++ optIntDisp "N/A" stats.total_files
      ++ "\n- Total Functions: " ++ optIntDisp "N/A" stats.total_methods
      ++ "\n- Total Lines: " ++ optIntDisp "N/A" stats.total_lines ++ "\n"
      ++ (if top_files.isEmpty then ""
          else "\nTOP FILES (by LOC):\n"
            ++ joinWith "" (top_files.map (fun f =>
                 "  - " ++ (f.file.getD "?") ++ ": " ++ optIntDisp "?" f.loc
                   ++ " lines (" ++ optIntDisp "?" f.methods ++ " functions)\n")))
  let prompt :=
    "\nYou are provided with the following codebase summary information below. Produce a concise, structured overview of the codebase including Purpose, Key Components, Main Modules, and Notable Patterns.\n\n"
      ++ overview_context ++ "\n\nSAMPLE FILE SUMMARIES:\n"
      ++ eng.jsonDump (file_summaries.take 10) ++ "\n\nUSER REQUEST: " ++ question
      ++ "\n\nBe concise and concrete. Cite the sample files where appropriate.\n"
  let answer :=
    match eng.llm prompt with
    | .ok r => r
    | .error e =>
      "LLM Error generating overview: " ++ e ++ "\n\nRaw summary:\n" ++ overview_context
  { answer := answer
    sources := [{ function := "Project Statistics", file := some "Multiple",
                  line := JVal.s "N/A" }]
    query_type := "overview"
    question := some question }

/-- The retrieval fan-out of query (lines 551-555), in store order. -/
def retrievedOf (eng : Engine) (question : String) (top_k_local : Nat) :
    List (String × List Doc) :=
  ["semantic", "structural", "fault", "hybrid"].map
    (fun n => (n, _retrieve_from_store (eng.stores n) question top_k_local))

/-- The per-store retrieval width of query: max of the caller top_k and the
configured TOP_K_RESULTS-or-5. -/
def topKLocal (eng : Engine) (top_k : Nat) : Nat :=
  max top_k (match eng.TOP_K_RESULTS with
    | some n => if n ≠ 0 then n else 5
    | none => 5)

/-- The expansion hop count of query: max 1 (GRAPH_DEPTH-or-2 minus one). -/
def hopsOf (eng : Engine) : Nat := (max 1 (eng.GRAPH_DEPTH.getD 2 - 1)).toNat

/-- The fused-then-expanded document list a non-literal, non-overview query
assembles its context from. -/
def pipelineDocs (eng : Engine) (question : String) (query_type : String)
    (top_k : Nat) : List (ℚ × Doc) :=
  let merged := _merge_and_score (retrievedOf eng question (topKLocal eng top_k))
    question query_type (topKLocal eng top_k)
  _graph_expand (methodById eng.enriched_methods) merged (hopsOf eng) 40

/-- Source: EnhancedRAGQueryEngine.query (step4_query_rag.py lines 530-585).
The initial self.initialize() call is the provider_ok gate: a failed
provider initialisation raises out of query before anything else runs. -/
def queryE (eng : Engine) (question : String) (query_type0 : String)
    (top_k : Nat) : Except EngineError QueryResult :=
  if !eng.provider_ok then .error .providerUnavailable
  else
    let processed := _preprocess_query question
    if !processed.is_valid then
      .ok { answer := "Query too short or invalid. Please provide a more specific question."
            sources := [], query_type := "invalid", question := some question }
    else
      match _literal_lookup eng.enriched_methods question with
      | some r => .ok r
      | none =>
        let query_type :=
          if query_type0 = "auto" then _detect_query_type processed.clean processed
          else query_type0
        if query_type = "overview" then .ok (_handle_overview eng question)
        else
          let pc := _prepare_context_blocks eng.MAX_CODE_LENGTH
            (pipelineDocs eng question query_type top_k) 12
          if (pyStripL pc.1.toList).isEmpty then
            .ok { answer := "No relevant code found for your query. Try rephrasing or asking about specific functions/files."
                  sources := [], query_type := query_type, question := some question }
          else
            let prompt := _build_prompt eng.codebase_stats question query_type pc.1
            let answer :=
              match eng.llm prompt with
              | .ok r => r
              | .error e => "LLM Error: " ++ e ++ "\n\nContext:\n" ++ pc.1
            .ok { answer := ⟨pyStripL answer.toList⟩
                  sources := pc.2.take 10
                  query_type := query_type, question := some question }

example : make_display_name (some "<init>") (some "<>")
    (some "def real_name(self):") 7 = "real_name" := by decide
example : make_display_name (some "<init>") none none 7 = "method_7" := by decide
example : make_display_name (some "good") (some "pkg.bad") none 7 = "good" := by decide
example : is_synthetic (some "init") = false := by decide
example : is_synthetic (some "<init>") = true := by decide

/-!
# Claims

One theorem per claim of the specification audit, with counterexamples and
witnesses where the claim status requires them.
-/

/-- C1, counterexample: a method with raw name angle-init, qualified name
pkg.mod.angle-init and source text defining real_name does NOT resolve to
real_name: the qualified-name fallback fires first, because the angle
brackets are split characters and the surviving token init is not
synthetic, so the resolved display name is init and the source-text regex
is never consulted. -/
theorem c1_counterexample :
    make_display_name (some "<init>") (some "pkg.mod.<init>")
      (some "def real_name(self):") 7 ≠ "real_name"
    ∧ make_display_name (some "<init>") (some "pkg.mod.<init>")
      (some "def real_name(self):") 7 = "init" := by
  exact ⟨by decide, by decide⟩

/-- C1 (amended): display-name resolution tries, in order, the raw name if
not synthetic, the last non-synthetic token of the qualified name (split on
dot, hash, slash, colon, dollar, angle brackets and space), a name
extracted from the source text by a def/class/function regex, and finally
the synthetic method-id placeholder.  In particular, for every method node
with raw name angle-init and qualified name pkg.mod.angle-init, whatever
the source text, the resolved display name is init — the token that
survives the qualified-name split — never reaching the source-text regex. -/
theorem c1_display_name_resolution (code : Option String) (method_id : Int) :
    make_display_name (some "<init>") (some "pkg.mod.<init>") code method_id = "init" :=
  rfl

/-- C6: the expansion inner loop scores a resolvable neighbour reached at
depth d exactly decayScore parent d, that is parent times 0.6 to the power
d plus one; and for a nonnegative parent score this assignment is antitone
in the depth: of two neighbours expanded with equal parent score at depths
d1 less than d2, the shallower one receives the greater-or-equal score. -/
theorem c6_decay_monotonicity
    (byId : Int → Option EnrichedMethod) (nid : Int) (nm : EnrichedMethod)
    (seen : Finset Int) (added : List (ℚ × Doc)) (nq : List (Int × ℚ × Nat))
    (max_add : Nat) (hby : byId nid = some nm)
    (p : ℚ) (hp : 0 ≤ p) (d1 d2 : Nat) (h : d1 < d2) :
    (expandNeighbors byId p d1 max_add [nid] seen added nq).2.1
      = added ++ [(decayScore p d1, docOfMethod nm)]
    ∧ decayScore p d1 = p * (6 / 10) ^ (d1 + 1)
    ∧ decayScore p d2 ≤ decayScore p d1 := by
  refine ⟨?_, rfl, ?_⟩
  · simp only [expandNeighbors, hby]
    split <;> simp [expandNeighbors]
  · unfold decayScore
    refine mul_le_mul_of_nonneg_left ?_ hp
    refine pow_le_pow_of_le_one (by norm_num) (by norm_num) ?_
    omega

/-- A minimal enriched method for the C6 witness. -/
def egMethod0 : EnrichedMethod :=
  { id := 9, display_name := "m0", name := "m0", filename := none, lineNumber := 1,
    full_code := "", calls := [], called_by := [], calls_full := [], called_by_full := [],
    fault_features := { has_null_checks := false, has_exception_handling := false,
                        unsafe_operations := [] },
    ast_features := astFeaturesDefault, orig_fullName := none, orig_signature := "" }

theorem c6_witness :
    (expandNeighbors (fun _ => some egMethod0) 1 0 40 [3] ∅ [] []).2.1
      = [] ++ [(decayScore 1 0, docOfMethod egMethod0)]
    ∧ decayScore 1 0 = 1 * (6 / 10) ^ (0 + 1)
    ∧ decayScore 1 1 ≤ decayScore 1 0 :=
  c6_decay_monotonicity (fun _ => some egMethod0) 3 egMethod0 ∅ [] [] 40 rfl
    1 zero_le_one 0 1 Nat.zero_lt_one

/-- Helper for C3: the inner loop never grows the added list beyond the
cap, as its break fires the moment the cap is reached. -/
theorem expandNeighbors_le_max (byId : Int → Option EnrichedMethod) (base : ℚ)
    (depth max_add : Nat) :
    ∀ (ns : List Int) (seen : Finset Int) (added : List (ℚ × Doc))
      (nq : List (Int × ℚ × Nat)),
      added.length < max_add →
      (expandNeighbors byId base depth max_add ns seen added nq).2.1.length ≤ max_add := by
  intro ns
  induction ns with
  | nil => intro seen added nq h; simp [expandNeighbors]; omega
  | cons nid rest ih =>
    intro seen added nq h
    simp only [expandNeighbors]
    cases byId nid with
    | none => exact ih _ _ _ h
    | some nm =>
      simp only []
      split
      · rename_i hle
        simp only [List.length_append, List.length_cons, List.length_nil]
        omega
      · rename_i hle
        refine ih _ _ _ ?_
        omega

/-- Helper for C3: through the outer loop the added list stays within the
cap. -/
theorem geLoop_added_le (byId : Int → Option EnrichedMethod) (hops k : Nat) :
    ∀ (seen : Finset Int) (q : List (Int × ℚ × Nat)) (added : List (ℚ × Doc)),
      added.length ≤ k → (geLoop byId hops k seen q added).length ≤ k := by
  intro seen q added
  induction seen, q, added using geLoop.induct byId hops k with
  | case1 seen added => intro h; simpa [geLoop] using h
  | case2 seen mid base depth qrest added hstop =>
    intro _
    rw [geLoop]
    simp only [dif_pos hstop]
    omega
  | case3 seen mid base depth qrest added hstop hdep ih =>
    intro h
    rw [geLoop]
    simp only [dif_neg hstop, if_pos hdep]
    exact ih h
  | case4 seen mid base depth qrest added hstop hdep hby ih =>
    intro h
    rw [geLoop]
    simp only [dif_neg hstop, if_neg hdep, hby]
    exact ih h
  | case5 seen mid base depth qrest added hstop hdep method hby r ih =>
    intro _
    rw [geLoop]
    simp only [dif_neg hstop, if_neg hdep, hby]
    refine ih ?_
    exact expandNeighbors_le_max byId base depth k _ seen added [] (by omega)

/-- C3: for every seed list, hop count and cap k, graph expansion is a
total function (the loop terminates on any call-graph oracle, cyclic or
not, its well-foundedness coming from the cap and the visited set, not from
depth alone) and the number of expansion-added documents never exceeds k. -/
theorem c3_bounded_expansion (byId : Int → Option EnrichedMethod)
    (scored : List (ℚ × Doc)) (hops k : Nat) :
    (graphExpandAdded byId scored hops k).length ≤ k := by
  unfold graphExpandAdded
  exact geLoop_added_le byId hops k _ _ [] (by simp)

/-- C7: under automatic typing, a query reading SQL injection classifies as
fault, a query reading who calls X as structural, a query reading overview
of this project as overview, and any query matching neither the fault nor
the structural vocabulary and not the overview patterns defaults to
semantic. -/
theorem c7_query_type_detection :
    _detect_query_type "SQL injection" (_preprocess_query "SQL injection") = "fault"
    ∧ _detect_query_type "who calls X" (_preprocess_query "who calls X") = "structural"
    ∧ _detect_query_type "overview of this project"
        (_preprocess_query "overview of this project") = "overview"
    ∧ ∀ q : String,
        fault_keywords.any (fun w => isSubB w.toList (pyLower q.toList)) = false →
        structural_keywords.any (fun w => isSubB w.toList (pyLower q.toList)) = false →
        (_preprocess_query q).is_overview = false →
        _detect_query_type q (_preprocess_query q) = "semantic" := by
  refine ⟨by decide, by decide, by decide, ?_⟩
  intro q hf hs ho
  unfold _detect_query_type
  rw [ho]
  change (if (fault_keywords.any fun w => isSubB w.toList (pyLower q.toList)) = true
      then "fault"
      else if (structural_keywords.any fun w => isSubB w.toList (pyLower q.toList)) = true
      then "structural" else "semantic") = "semantic"
  rw [hf, hs]
  simp

theorem c7_witness :
    _detect_query_type "hello there" (_preprocess_query "hello there") = "semantic" :=
  c7_query_type_detection.2.2.2 "hello there" (by decide) (by decide) (by decide)

/-- A concrete engine used by the witnesses: provider up, no store loads,
no enriched methods, empty statistics. -/
def egEngine : Engine :=
  { provider_ok := true
    stores := fun _ => none
    llm := fun _ => Except.error "connection refused"
    enriched_methods := []
    codebase_stats := { total_files := none, total_methods := none,
                        total_lines := none, top_files_by_loc := [] }
    jsonDump := fun _ => "[]"
    TOP_K_RESULTS := none
    GRAPH_DEPTH := none
    MAX_CODE_LENGTH := 100 }

/-- C10: a query whose stripped text is shorter than three characters is
answered with the invalid marker and an empty source list; the result is a
fixed record mentioning only the question, so it is the same whatever the
stores, the enriched index or the chat model hold — none of them is
consulted. -/
theorem c10_short_query_invalid (eng : Engine) (question : String)
    (query_type0 : String) (top_k : Nat)
    (hok : eng.provider_ok = true)
    (hshort : (pyStripL question.toList).length < 3) :
    queryE eng question query_type0 top_k
      = .ok { answer := "Query too short or invalid. Please provide a more specific question."
              sources := [], query_type := "invalid", question := some question } := by
  have hval : (_preprocess_query question).is_valid = false := by
    simp only [_preprocess_query, String.toList, decide_eq_false_iff_not]
    have hshort2 : (pyStripL question.data).length < 3 := hshort
    omega
  simp [queryE, hok, hval]

theorem c10_witness :
    queryE egEngine "hi" "auto" 15
      = .ok { answer := "Query too short or invalid. Please provide a more specific question."
              sources := [], query_type := "invalid", question := some "hi" } :=
  c10_short_query_invalid egEngine "hi" "auto" 15 rfl (by decide)

/-- Helper: merging four empty retrieval lists yields no candidates. -/
theorem merge_empty_of_all_nil (retrieved : List (String × List Doc))
    (query query_type : String) (top_k : Nat)
    (h : ∀ p ∈ retrieved, p.2 = []) :
    _merge_and_score retrieved query query_type top_k = [] := by
  have hst : msAll query_type retrieved msInit = msInit := by
    induction retrieved with
    | nil => rfl
    | cons hd rest ih =>
      have hh : hd.2 = [] := h hd (List.mem_cons_self _ _)
      obtain ⟨sn, docs⟩ := hd
      simp only at hh
      subst hh
      simp only [msAll, msDocs]
      exact ih (fun p hp => h p (List.mem_cons_of_mem _ hp))
  simp only [_merge_and_score, hst]
  simp [msInit, List.insertionSort]

/-- Helper: expanding an empty candidate list adds nothing. -/
theorem graph_expand_nil (byId : Int → Option EnrichedMethod) (hops max_add : Nat) :
    _graph_expand byId [] hops max_add = [] := by
  unfold _graph_expand graphExpandAdded geSeeds
  simp only [List.foldl_nil]
  rw [geLoop]
  simp [dedupByKey, List.insertionSort]

/-- Helper: assembling an empty document list yields the empty context and
no sources. -/
theorem prepare_nil (maxLen max_blocks : Nat) :
    _prepare_context_blocks maxLen [] max_blocks = ("", []) := by
  simp [_prepare_context_blocks, pcbGo, joinWith]

/-- C9: when retrieval, fusion, expansion and context assembly leave a
well-formed, non-literal, non-overview query with a whitespace-empty
context, query returns the explicit no-relevant-result answer with an empty
source list as an ordinary result, while a provider that failed to
initialise is surfaced as a distinct error value, never substituted with an
empty result. -/
theorem c9_empty_result_signaling (eng : Engine) (question qt query_type0 : String)
    (top_k : Nat)
    (hok : eng.provider_ok = true)
    (hval : (_preprocess_query question).is_valid = true)
    (hlit : _literal_lookup eng.enriched_methods question = none)
    (hqtdef : qt = if query_type0 = "auto"
        then _detect_query_type (_preprocess_query question).clean (_preprocess_query question)
        else query_type0)
    (hqt : qt ≠ "overview")
    (hempty : (pyStripL (_prepare_context_blocks eng.MAX_CODE_LENGTH
        (pipelineDocs eng question qt top_k) 12).1.toList).isEmpty = true) :
    queryE eng question query_type0 top_k
      = .ok { answer := "No relevant code found for your query. Try rephrasing or asking about specific functions/files."
              sources := [], query_type := qt, question := some question }
    ∧ (∀ eng2 : Engine, eng2.provider_ok = false →
        queryE eng2 question query_type0 top_k = .error .providerUnavailable) := by
  constructor
  · simp only [queryE, hok, Bool.not_true, Bool.false_eq_true, ite_false, hval,
      Bool.not_false, ite_true, hlit]
    rw [← hqtdef, if_neg hqt, hempty]
    simp
  · intro eng2 h2
    simp [queryE, h2]

/-- Helper: the head reached by dropWhile fails the predicate. -/
theorem dropWhile_head_false (p : Char → Bool) :
    ∀ (l : List Char) (d : Char) (r : List Char), l.dropWhile p = d :: r → p d = false := by
  intro l
  induction l with
  | nil => intro d r h; simp [List.dropWhile] at h
  | cons c t ih =>
    intro d r h
    by_cases hc : p c
    · rw [List.dropWhile_cons_of_pos hc] at h
      exact ih d r h
    · rw [List.dropWhile_cons_of_neg hc] at h
      cases h
      simpa using hc

/-- Helper: a successful quoted-substring match decomposes the input as
prefix, opening quote, nonempty run, closing quote, suffix. -/
theorem findQuoted_shape :
    ∀ (s run : List Char), findQuoted s = some run →
      ∃ a b c d, s = a ++ c :: (run ++ d :: b)
        ∧ isQuoteC c = true ∧ isQuoteC d = true ∧ run ≠ [] := by
  intro s
  induction s with
  | nil => intro run h; simp [findQuoted] at h
  | cons c0 rest ih =>
    intro run h
    rw [findQuoted] at h
    by_cases hq : isQuoteC c0
    · rw [if_pos hq] at h
      cases hd : rest.dropWhile (fun d => !(isQuoteC d)) with
      | nil =>
        rw [hd] at h
        simp only [] at h
        obtain ⟨a, b, c, d, hdec, h1, h2, h3⟩ := ih run h
        exact ⟨c0 :: a, b, c, d, by rw [hdec]; rfl, h1, h2, h3⟩
      | cons d r2 =>
        rw [hd] at h
        simp only [] at h
        by_cases he : (rest.takeWhile (fun d => !(isQuoteC d))).isEmpty
        · rw [if_pos he] at h
          obtain ⟨a, b, c, d2, hdec, h1, h2, h3⟩ := ih run h
          exact ⟨c0 :: a, b, c, d2, by rw [hdec]; rfl, h1, h2, h3⟩
        · rw [if_neg he] at h
          injection h with hrun
          refine ⟨[], r2, c0, d, ?_, hq, ?_, ?_⟩
          · have := List.takeWhile_append_dropWhile (fun d => !(isQuoteC d)) rest
            rw [hd, hrun] at this
            simp only [List.nil_append]
            rw [← this]
          · have := dropWhile_head_false (fun d => !(isQuoteC d)) rest d r2 hd
            simpa using this
          · rw [← hrun]
            intro hc
            rw [hc] at he
            simp at he
    · rw [if_neg hq] at h
      obtain ⟨a, b, c, d, hdec, h1, h2, h3⟩ := ih run h
      exact ⟨c0 :: a, b, c, d, by rw [hdec]; rfl, h1, h2, h3⟩

/-- Helper: a successful angle-token match decomposes the input as prefix,
open angle, nonempty run, close angle, suffix. -/
theorem findAngle_shape :
    ∀ (s run : List Char), findAngle s = some run →
      ∃ a b, s = a ++ '<' :: (run ++ '>' :: b) ∧ run ≠ [] := by
  intro s
  induction s with
  | nil => intro run h; simp [findAngle] at h
  | cons c0 rest ih =>
    intro run h
    rw [findAngle] at h
    by_cases hq : c0 = '<'
    · rw [if_pos hq] at h
      cases hd : rest.dropWhile (fun d => d ≠ '>') with
      | nil =>
        rw [hd] at h
        simp only [] at h
        obtain ⟨a, b, hdec, h3⟩ := ih run h
        exact ⟨c0 :: a, b, by rw [hdec]; rfl, h3⟩
      | cons d r2 =>
        rw [hd] at h
        simp only [] at h
        by_cases he : (rest.takeWhile (fun d => d ≠ '>')).isEmpty
        · rw [if_pos he] at h
          obtain ⟨a, b, hdec, h3⟩ := ih run h
          exact ⟨c0 :: a, b, by rw [hdec]; rfl, h3⟩
        · rw [if_neg he] at h
          injection h with hrun
          have hdg : d = '>' := by
            have := dropWhile_head_false (fun d => d ≠ '>') rest d r2 hd
            simpa using this
          refine ⟨[], r2, ?_, ?_⟩
          · have := List.takeWhile_append_dropWhile (fun d => d ≠ '>') rest
            rw [hd, hrun, hdg] at this
            rw [hq]
            simp only [List.nil_append]
            rw [← this]
          · rw [← hrun]
            intro hc
            rw [hc] at he
            simp at he
    · rw [if_neg hq] at h
      obtain ⟨a, b, hdec, h3⟩ := ih run h
      exact ⟨c0 :: a, b, by rw [hdec]; rfl, h3⟩

/-- Helper: dropWhile over a list with a marked non-matching block keeps
the block and everything after it. -/
theorem dropWhile_decomp (p : Char → Bool) (mid b : List Char)
    (hne : mid ≠ []) (hh : ∀ x r, mid = x :: r → p x = false) :
    ∀ a : List Char, ∃ a2, (a ++ (mid ++ b)).dropWhile p = a2 ++ (mid ++ b) := by
  intro a
  induction a with
  | nil =>
    cases mid with
    | nil => exact absurd rfl hne
    | cons x r =>
      refine ⟨[], ?_⟩
      simp only [List.nil_append, List.cons_append]
      rw [List.dropWhile_cons_of_neg]
      simp [hh x r rfl]
  | cons c t ih =>
    by_cases hc : p c
    · obtain ⟨a2, h2⟩ := ih
      refine ⟨a2, ?_⟩
      rw [List.cons_append, List.dropWhile_cons_of_pos hc, h2]
    · exact ⟨c :: t, by rw [List.cons_append, List.dropWhile_cons_of_neg hc]⟩

/-- Helper: stripping keeps at least any inner block that starts and ends
with non-whitespace characters. -/
theorem pyStrip_length_ge (a mid b : List Char) (hne : mid ≠ [])
    (hh : ∀ x, mid.head? = some x → isWSC x = false)
    (hl : ∀ x, mid.getLast? = some x → isWSC x = false) :
    mid.length ≤ (pyStripL (a ++ (mid ++ b))).length := by
  obtain ⟨a2, h2⟩ := dropWhile_decomp isWSC mid b hne
    (fun x r hx => hh x (by rw [hx]; rfl)) a
  unfold pyStripL
  rw [h2]
  have hrev : (a2 ++ (mid ++ b)).reverse = b.reverse ++ (mid.reverse ++ a2.reverse) := by
    simp [List.reverse_append, List.append_assoc]
  rw [hrev]
  have hmr : mid.reverse ≠ [] := by simpa using hne
  obtain ⟨b2, h3⟩ := dropWhile_decomp isWSC mid.reverse a2.reverse hmr
    (fun x r hx => hl x (by rw [← List.head?_reverse, hx]; rfl)) b.reverse
  rw [h3]
  simp only [List.length_reverse, List.length_append]
  omega

/-- Helper: any string containing a non-whitespace-delimited nonempty run
between two non-whitespace delimiters strips to length at least three. -/
theorem strip_len_of_delim (s run : List Char) (a b : List Char) (c d : Char)
    (hdec : s = a ++ c :: (run ++ d :: b))
    (hc : isWSC c = false) (hd : isWSC d = false) (hrun : run ≠ []) :
    3 ≤ (pyStripL s).length := by
  have hm : s = a ++ ((c :: (run ++ [d])) ++ b) := by rw [hdec]; simp
  have hmid : (c :: (run ++ [d])).getLast? = some d := by
    rw [show c :: (run ++ [d]) = (c :: run) ++ [d] by simp, List.getLast?_concat]
  have hlen := pyStrip_length_ge a (c :: (run ++ [d])) b (by simp)
    (fun x hx => by
      simp only [List.head?_cons, Option.some.injEq] at hx
      rw [← hx]; exact hc)
    (fun x hx => by
      rw [hmid] at hx
      injection hx with hx2
      rw [← hx2]; exact hd)
  rw [hm]
  have h1 : 1 ≤ run.length := by
    cases run with
    | nil => exact absurd rfl hrun
    | cons _ _ => simp
  simp only [List.length_cons, List.length_append, List.length_nil] at hlen
  omega

/-- Helper: a query carrying a literal token is never shorter than the
validity threshold: the token plus its two delimiters survive stripping. -/
theorem literal_valid (question tok : String)
    (h : literalTokenOf question = some tok) :
    (_preprocess_query question).is_valid = true := by
  have hlen : 3 ≤ (pyStripL question.toList).length := by
    unfold literalTokenOf at h
    cases hq : extract_quoted question with
    | some l =>
      unfold extract_quoted at hq
      cases hfq : findQuoted question.toList with
      | none => rw [hfq] at hq; simp at hq
      | some run =>
        obtain ⟨a, b, c, d, hdec, h1, h2, h3⟩ := findQuoted_shape question.toList run hfq
        have hc2 : isWSC c = false := by
          have hcc : c = '"' ∨ c = '\'' := by
            unfold isQuoteC at h1
            simpa using h1
          rcases hcc with hcc | hcc <;> rw [hcc] <;> decide
        have hd2 : isWSC d = false := by
          have hcc : d = '"' ∨ d = '\'' := by
            unfold isQuoteC at h2
            simpa using h2
          rcases hcc with hcc | hcc <;> rw [hcc] <;> decide
        exact strip_len_of_delim question.toList run a b c d hdec hc2 hd2 h3
    | none =>
      rw [hq] at h
      cases hfa : findAngle question.toList with
      | none => rw [hfa] at h; simp at h
      | some run =>
        obtain ⟨a, b, hdec, h3⟩ := findAngle_shape question.toList run hfa
        exact strip_len_of_delim question.toList run a b '<' '>' hdec (by decide) (by decide) h3
  simp only [_preprocess_query, String.toList]
  rw [decide_eq_true_eq]
  exact hlen

/-- C2: a query containing a quoted substring or an angle-bracket token is
answered directly by the literal lookup: the result is exactly the
case-insensitive substring matches of the stripped, lowered token against
the enriched display names (capped at twenty sources), it is returned even
when no match exists, and the outcome depends only on the enriched index —
vector retrieval, rank fusion and the chat model are never consulted. -/
theorem c2_literal_short_circuit (eng : Engine) (question query_type0 : String)
    (top_k : Nat) (tok : String)
    (hok : eng.provider_ok = true)
    (hlit : literalTokenOf question = some tok) :
    ∃ r : QueryResult,
      _literal_lookup eng.enriched_methods question = some r
      ∧ queryE eng question query_type0 top_k = .ok r
      ∧ r.query_type = "literal"
      ∧ r.sources = ((eng.enriched_methods.filter (fun m =>
          isSubB (pyLower (pyStripL tok.toList))
            (pyLower (litMatchName m).toList))).take 20).map litSource
      ∧ (∀ eng2 : Engine, eng2.provider_ok = true →
          eng2.enriched_methods = eng.enriched_methods →
          queryE eng2 question query_type0 top_k
            = queryE eng question query_type0 top_k) := by
  have hval := literal_valid question tok hlit
  have hlk : ∃ r : QueryResult,
      _literal_lookup eng.enriched_methods question = some r
      ∧ r.query_type = "literal"
      ∧ r.sources = ((eng.enriched_methods.filter (fun m =>
          isSubB (pyLower (pyStripL tok.toList))
            (pyLower (litMatchName m).toList))).take 20).map litSource := by
    unfold _literal_lookup
    rw [hlit]
    simp only []
    split
    · rename_i he
      refine ⟨_, rfl, rfl, ?_⟩
      rw [List.isEmpty_iff.mp he]
      rfl
    · exact ⟨_, rfl, rfl, rfl⟩
  obtain ⟨r, hr1, hr2, hr3⟩ := hlk
  refine ⟨r, hr1, ?_, hr2, hr3, ?_⟩
  · simp only [queryE, hok, Bool.not_true, Bool.false_eq_true, ite_false, hval,
      Bool.not_false, ite_true, hr1]
  · intro eng2 h2ok h2en
    simp only [queryE, hok, h2ok, Bool.not_true, Bool.false_eq_true, ite_false, hval,
      Bool.not_false, ite_true, h2en, hr1]

/-- A concrete enriched method used by the witnesses. -/
def egMethod : EnrichedMethod :=
  { id := 5
    display_name := "processData"
    name := "processData"
    filename := some "a.py"
    lineNumber := 10
    full_code := "def processData():\n    return 1"
    calls := []
    called_by := []
    calls_full := []
    called_by_full := []
    fault_features := { has_null_checks := false, has_exception_handling := false,
                        unsafe_operations := [] }
    ast_features := astFeaturesDefault
    orig_fullName := some "pkg.processData"
    orig_signature := "" }

def egEngine2 : Engine := { egEngine with enriched_methods := [egMethod] }

theorem c2_witness :
    ∃ r : QueryResult,
      _literal_lookup egEngine2.enriched_methods "find <processData>" = some r
      ∧ queryE egEngine2 "find <processData>" "auto" 15 = .ok r
      ∧ r.query_type = "literal"
      ∧ r.sources = ((egEngine2.enriched_methods.filter (fun m =>
          isSubB (pyLower (pyStripL ("processData" : String).toList))
            (pyLower (litMatchName m).toList))).take 20).map litSource
      ∧ (∀ eng2 : Engine, eng2.provider_ok = true →
          eng2.enriched_methods = egEngine2.enriched_methods →
          queryE eng2 "find <processData>" "auto" 15
            = queryE egEngine2 "find <processData>" "auto" 15) :=
  c2_literal_short_circuit egEngine2 "find <processData>" "auto" 15 "processData"
    rfl (by decide)

theorem c9_witness :
    queryE egEngine "zzzz nonsense query" "semantic" 15
      = .ok { answer := "No relevant code found for your query. Try rephrasing or asking about specific functions/files."
              sources := [], query_type := "semantic", question := some "zzzz nonsense query" } :=
  (c9_empty_result_signaling egEngine "zzzz nonsense query" "semantic" "semantic" 15 rfl
    (by decide) (by decide) (by decide) (by decide)
    (by
      have h1 : pipelineDocs egEngine "zzzz nonsense query" "semantic" 15 = [] := by
        unfold pipelineDocs
        rw [merge_empty_of_all_nil _ _ _ _ (by decide), graph_expand_nil]
      rw [h1, prepare_nil]
      decide)).1

/-! ### Dict lemmas for the graph-index characterisation (C4) -/

theorem find?_map_setter {κ β : Type} [DecidableEq κ] (k : κ) (v : β) :
    ∀ d : List (κ × β), (∃ p ∈ d, p.1 = k) →
      (d.map (fun p => if p.1 = k then (k, v) else p)).find?
        (fun p => decide (p.1 = k)) = some (k, v) := by
  intro d
  induction d with
  | nil => rintro ⟨p, hp, _⟩; simp at hp
  | cons a t ih =>
    rintro ⟨p, hp, hpk⟩
    simp only [List.map_cons]
    by_cases hak : a.1 = k
    · rw [if_pos hak]
      rw [List.find?_cons_of_pos _ (by simp)]
    · rw [if_neg hak]
      rw [List.find?_cons_of_neg _ (by simpa using hak)]
      refine ih ⟨p, ?_, hpk⟩
      rcases List.mem_cons.mp hp with h | h
      · exact absurd (h ▸ hpk) hak
      · exact h

theorem find?_map_setter_ne {κ β : Type} [DecidableEq κ] (k k2 : κ) (v : β)
    (h : k2 ≠ k) :
    ∀ d : List (κ × β),
      (d.map (fun p => if p.1 = k then (k, v) else p)).find?
        (fun p => decide (p.1 = k2)) = d.find? (fun p => decide (p.1 = k2)) := by
  intro d
  induction d with
  | nil => rfl
  | cons a t ih =>
    simp only [List.map_cons]
    by_cases hak : a.1 = k
    · rw [if_pos hak]
      rw [List.find?_cons_of_neg _ (by simp; exact fun hc => h hc.symm)]
      rw [List.find?_cons_of_neg _ (by rw [hak]; simp; exact fun hc => h hc.symm)]
      exact ih
    · rw [if_neg hak]
      cases hpa : (decide (a.1 = k2)) with
      | true => simp [List.find?, hpa]
      | false => simp [List.find?, hpa, ih]

theorem dictGet_set_self {κ β : Type} [DecidableEq κ] (d : List (κ × β)) (k : κ) (v : β) :
    dictGet (dictSet d k v) k = some v := by
  unfold dictGet dictSet
  by_cases hmem : (d.find? (fun p => decide (p.1 = k))).isSome
  · rw [if_pos hmem]
    obtain ⟨p, hp⟩ := Option.isSome_iff_exists.mp hmem
    rw [find?_map_setter k v d
      ⟨p, List.mem_of_find?_eq_some hp, by simpa using List.find?_some hp⟩]
    rfl
  · rw [if_neg hmem]
    rw [List.find?_append]
    have hnone : d.find? (fun p => decide (p.1 = k)) = none := by
      cases hfind : d.find? (fun p => decide (p.1 = k)) with
      | none => rfl
      | some p => rw [hfind] at hmem; simp at hmem
    rw [hnone]
    simp [List.find?]

theorem dictGet_set_ne {κ β : Type} [DecidableEq κ] (d : List (κ × β)) (k k2 : κ)
    (v : β) (h : k2 ≠ k) :
    dictGet (dictSet d k v) k2 = dictGet d k2 := by
  unfold dictGet dictSet
  by_cases hmem : (d.find? (fun p => decide (p.1 = k))).isSome
  · rw [if_pos hmem, find?_map_setter_ne k k2 v h d]
  · rw [if_neg hmem, List.find?_append]
    have hkk : [(k, v)].find? (fun p => decide (p.1 = k2)) = none := by
      have hc2 : (decide ((k, v).1 = k2)) = false := by
        simp only [decide_eq_false_iff_not]
        exact fun hc => h hc.symm
      simp [List.find?, hc2]
    rw [hkk, Option.or_none]

theorem dictGet_dictAppend_self {β : Type} (d : List (Int × List β)) (k : Int) (v : β) :
    dictGet (dictAppend d k v) k = some ((dictGet d k).getD [] ++ [v]) := by
  unfold dictAppend
  cases hg : dictGet d k with
  | some old => rw [dictGet_set_self]; rfl
  | none =>
    unfold dictGet at hg ⊢
    rw [List.find?_append]
    have hnone : d.find? (fun p => decide (p.1 = k)) = none := by
      cases hfind : d.find? (fun p => decide (p.1 = k)) with
      | none => rfl
      | some p => rw [hfind] at hg; simp at hg
    rw [hnone]
    simp [List.find?]

theorem dictGet_dictAppend_ne {β : Type} (d : List (Int × List β)) (k k2 : Int) (v : β)
    (h : k2 ≠ k) :
    dictGet (dictAppend d k v) k2 = dictGet d k2 := by
  unfold dictAppend
  cases hg : dictGet d k with
  | some old => rw [dictGet_set_ne _ _ _ _ h]
  | none =>
    unfold dictGet
    rw [List.find?_append]
    have hkk : [(k, [v])].find? (fun p => decide (p.1 = k2)) = none := by
      have hc2 : (decide ((k, [v]).1 = k2)) = false := by
        simp only [decide_eq_false_iff_not]
        exact fun hc => h hc.symm
      simp [List.find?, hc2]
    rw [hkk, Option.or_none]

/-- Closed form of a defaultdict of appended values: the accumulated list,
present exactly when at least one append hit the key. -/
def dictCombine {β : Type} (o : Option (List β)) (l : List β) : Option (List β) :=
  match o with
  | some old => some (old ++ l)
  | none => if l.isEmpty then none else some l

theorem foldDictAppend_spec {σ : Type} (sel : σ → Option (Int × (Int × String))) :
    ∀ (edges : List σ) (acc : List (Int × List (Int × String))) (i : Int),
      dictGet (edges.foldl (fun acc e =>
        match sel e with
        | some kv => dictAppend acc kv.1 kv.2
        | none => acc) acc) i
      = dictCombine (dictGet acc i) (edges.filterMap (fun e =>
          match sel e with
          | some kv => if kv.1 = i then some kv.2 else none
          | none => none)) := by
  intro edges
  induction edges with
  | nil =>
    intro acc i
    simp only [List.foldl_nil, List.filterMap_nil, dictCombine]
    cases dictGet acc i <;> simp
  | cons e t ih =>
    intro acc i
    simp only [List.foldl_cons, List.filterMap_cons]
    cases hsel : sel e with
    | none => simp only [hsel]; exact ih acc i
    | some kv =>
      simp only [hsel]
      by_cases hk : kv.1 = i
      · rw [if_pos hk]
        rw [ih]
        rw [← hk, dictGet_dictAppend_self]
        cases hg : dictGet acc kv.1 with
        | some old => simp [dictCombine, hg]
        | none => simp [dictCombine, hg]
      · rw [if_neg hk]
        rw [ih]
        rw [dictGet_dictAppend_ne _ _ _ _ (fun hc => hk hc.symm)]

theorem foldNodes_spec :
    ∀ (nodes : List CpgNode) (acc : List (Int × CpgNode)) (i : Int),
      dictGet (nodes.foldl (fun acc n =>
        match n.id with
        | some nid => dictSet acc nid n
        | none => acc) acc) i
      = match (nodes.filter (fun n => decide (n.id = some i))).getLast? with
        | some n => some n
        | none => dictGet acc i := by
  intro nodes
  induction nodes with
  | nil => intro acc i; simp
  | cons n t ih =>
    intro acc i
    simp only [List.foldl_cons, List.filter_cons]
    cases hid : n.id with
    | none =>
      have hcond : (decide ((none : Option Int) = some i)) = false := by simp
      rw [hcond]
      simp only [Bool.false_eq_true, if_false]
      exact ih acc i
    | some nid =>
      by_cases hni : nid = i
      · rw [hni]
        have hcond : (decide (some i = some i)) = true := by simp
        rw [hcond]
        simp only [if_true]
        rw [ih]
        cases hf : t.filter (fun n => decide (n.id = some i)) with
        | nil => simp [dictGet_set_self]
        | cons x xs =>
          have hex : ∃ m, (x :: xs).getLast? = some m := by
            cases hgl : (x :: xs).getLast? with
            | some m => exact ⟨m, rfl⟩
            | none => simp [List.getLast?_eq_none_iff] at hgl
          obtain ⟨m, hm⟩ := hex
          rw [List.getLast?_cons_cons, hm]
      · have hcond : (decide (some nid = some i)) = false := by simp [hni]
        rw [hcond]
        simp only [Bool.false_eq_true, if_false]
        rw [ih]
        cases (t.filter (fun n => decide (n.id = some i))).getLast? with
        | some m => rfl
        | none => exact dictGet_set_ne acc nid i n (fun hc => hni hc.symm)

/-- The closed-form outgoing selector: edges with both endpoints present
whose source is the queried id, regardless of endpoint resolution. -/
def edgeSelOut (e : CpgEdge) : Option (Int × (Int × String)) :=
  match e.src, e.dst with
  | some s, some d => some (s, (d, edgeLab e))
  | _, _ => none

/-- The closed-form incoming selector. -/
def edgeSelIn (e : CpgEdge) : Option (Int × (Int × String)) :=
  match e.src, e.dst with
  | some s, some d => some (d, (s, edgeLab e))
  | _, _ => none

/-- C4, counterexample: an edge whose destination id 999 resolves to no
node is NOT skipped by build_graph_index — it contributes a full adjacency
entry; only edges with a missing (null) endpoint are skipped. -/
theorem c4_counterexample :
    dictGet (build_graph_index
        [{ id := some 1, name := none, fullName := none, filename := none }]
        [{ src := some 1, dst := some 999, label := some "CALL" }]).outgoing 1
      = some [(999, "CALL")]
    ∧ dictGet (build_graph_index
        [{ id := some 1, name := none, fullName := none, filename := none }]
        [{ src := some 1, dst := some 999, label := some "CALL" }]).id_to_node 999
      = none := by
  exact ⟨by decide, by decide⟩

/-- C4 (amended): building the adjacency index never fails on duplicate or
dangling input: for repeated node ids the last-seen node is kept in the
id-to-node map; an edge is skipped only when its source or destination id
is missing (the Python None); an edge whose endpoint ids are present is
recorded in the outgoing and incoming adjacency maps even when they resolve
to no known node — unresolved ids are instead dropped silently later, at
graph-context traversal.  The three closed forms below are proved for every
node list, edge list and id. -/
theorem c4_graph_index_build (nodes : List CpgNode) (edges : List CpgEdge) (i : Int) :
    dictGet (build_graph_index nodes edges).id_to_node i
      = (nodes.filter (fun n => decide (n.id = some i))).getLast?
    ∧ dictGet (build_graph_index nodes edges).outgoing i
      = dictCombine none (edges.filterMap (fun e =>
          match edgeSelOut e with
          | some kv => if kv.1 = i then some kv.2 else none
          | none => none))
    ∧ dictGet (build_graph_index nodes edges).incoming i
      = dictCombine none (edges.filterMap (fun e =>
          match edgeSelIn e with
          | some kv => if kv.1 = i then some kv.2 else none
          | none => none)) := by
  refine ⟨?_, ?_, ?_⟩
  · unfold build_graph_index
    rw [foldNodes_spec]
    cases (nodes.filter (fun n => decide (n.id = some i))).getLast? with
    | some m => rfl
    | none => rfl
  · unfold build_graph_index
    have hfun : (fun (acc : List (Int × List (Int × String))) (e : CpgEdge) =>
        match e.src, e.dst with
        | some s, some d => dictAppend acc s (d, edgeLab e)
        | _, _ => acc)
      = (fun acc e =>
        match edgeSelOut e with
        | some kv => dictAppend acc kv.1 kv.2
        | none => acc) := by
      funext acc e
      unfold edgeSelOut
      cases e.src <;> cases e.dst <;> rfl
    rw [hfun, foldDictAppend_spec]
    rfl
  · unfold build_graph_index
    have hfun : (fun (acc : List (Int × List (Int × String))) (e : CpgEdge) =>
        match e.src, e.dst with
        | some s, some d => dictAppend acc d (s, edgeLab e)
        | _, _ => acc)
      = (fun acc e =>
        match edgeSelIn e with
        | some kv => dictAppend acc kv.1 kv.2
        | none => acc) := by
      funext acc e
      unfold edgeSelIn
      cases e.src <;> cases e.dst <;> rfl
    rw [hfun, foldDictAppend_spec]
    rfl

/-- C8, counterexample: on unparseable text the syntax features do NOT
degrade to all-zero counts: num_args degrades to the Python None (modelled
as none), not to zero. -/
theorem c8_counterexample :
    ast_features_from_code (fun _ => none) "def f(:" = astFeaturesDefault
    ∧ (ast_features_from_code (fun _ => none) "def f(:").num_args ≠ some 0
    ∧ (ast_features_from_code (fun _ => none) "def f(:").num_args = none :=
  ⟨rfl, by decide, rfl⟩

/-- C8 (amended): enrichment never raises on missing or unparseable
source: when a method's source file cannot be located, its text falls back
to the node's own code field, the method still appears in the enriched
list (one output per input, in order), and on unparseable text the syntax
features degrade to the initial dictionary — boolean fields false, counts
zero, except num_args, which degrades to the Python None rather than 0. -/
theorem c8_graceful_degradation (gi : GraphIndex) (source_files : List (String × String))
    (parse : String → Option PyNode) (graph_depth : Nat)
    (methods : List MethodNode) (m : MethodNode)
    (hm : m ∈ methods)
    (hsrc : locate_src source_files (methodFilename m) = none) :
    extract_full_code source_files m = m.code.getD ""
    ∧ (enrichOne gi source_files parse graph_depth m).full_code = m.code.getD ""
    ∧ enrichOne gi source_files parse graph_depth m
        ∈ enrich_methods gi source_files parse graph_depth methods
    ∧ (enrich_methods gi source_files parse graph_depth methods).length = methods.length
    ∧ (∀ c : String, parse c = none →
        ast_features_from_code parse c = astFeaturesDefault)
    ∧ astFeaturesDefault.uses_recursion = false
    ∧ astFeaturesDefault.uses_io = false
    ∧ astFeaturesDefault.num_calls = 0
    ∧ astFeaturesDefault.num_branches = 0
    ∧ astFeaturesDefault.num_loops = 0
    ∧ astFeaturesDefault.num_returns = 0
    ∧ astFeaturesDefault.num_awaits = 0
    ∧ astFeaturesDefault.num_args = none := by
  have hext : extract_full_code source_files m = m.code.getD "" := by
    unfold extract_full_code
    simp only []
    rw [hsrc]
  refine ⟨hext, hext, List.mem_map_of_mem _ hm, by simp [enrich_methods], ?_,
    rfl, rfl, rfl, rfl, rfl, rfl, rfl, rfl⟩
  intro c hc
  unfold ast_features_from_code
  rw [hc]
  split <;> rfl

def egIndex : GraphIndex := { id_to_node := [], outgoing := [], incoming := [] }

def egRawMethod : MethodNode :=
  { id := some 5, name := some "foo", fullName := none, filename := some "missing.py",
    file := none, lineNumber := some 3, line_number := none,
    code := some "def foo(): pass", signature := none }

theorem c8_witness :
    extract_full_code [] egRawMethod = egRawMethod.code.getD ""
    ∧ (enrichOne egIndex [] (fun _ => none) 3 egRawMethod).full_code
        = egRawMethod.code.getD ""
    ∧ enrichOne egIndex [] (fun _ => none) 3 egRawMethod
        ∈ enrich_methods egIndex [] (fun _ => none) 3 [egRawMethod]
    ∧ (enrich_methods egIndex [] (fun _ => none) 3 [egRawMethod]).length
        = ([egRawMethod] : List MethodNode).length
    ∧ (∀ c : String, (fun _ : String => (none : Option PyNode)) c = none →
        ast_features_from_code (fun _ => none) c = astFeaturesDefault)
    ∧ astFeaturesDefault.uses_recursion = false
    ∧ astFeaturesDefault.uses_io = false
    ∧ astFeaturesDefault.num_calls = 0
    ∧ astFeaturesDefault.num_branches = 0
    ∧ astFeaturesDefault.num_loops = 0
    ∧ astFeaturesDefault.num_returns = 0
    ∧ astFeaturesDefault.num_awaits = 0
    ∧ astFeaturesDefault.num_args = none :=
  c8_graceful_degradation egIndex [] (fun _ => none) 3 [egRawMethod] egRawMethod
    (List.mem_cons_self _ _) (by decide)

/-! ### C5: rank-fusion score characterisation -/

/-- Modelled from the claim (C5): the position-based proxy contribution of
one ranked view list to one function key — for each occurrence at rank r in
a list of length len, the view weight times max(0, 1 - r/len). -/
def specRowSum (w : ℚ) (len : Nat) (key : String) : List Doc → Nat → ℚ
  | [], _ => 0
  | d :: t, r =>
    (if fuseKey d.metadata = key then w * max 0 (1 - (r : ℚ) / (len : ℚ)) else 0)
      + specRowSum w len key t (r + 1)

/-- Modelled from the claim (C5): the sum of those contributions over all
views, each scaled by the query-type weight profile. -/
def specPosSum (query_type : String) (key : String) : List (String × List Doc) → ℚ
  | [] => 0
  | (sn, docs) :: rest =>
    specRowSum (weightsFor query_type sn) docs.length key docs 0
      + specPosSum query_type key rest

/-- The first document any view retrieved under a key, in store-then-rank
order: the document whose rendered content the lexical boost counts keyword
occurrences in. -/
def firstSeenDoc (retrieved : List (String × List Doc)) (key : String) : Option Doc :=
  ((retrieved.map Prod.snd).flatten).find? (fun d => decide (fuseKey d.metadata = key))

/-- Modelled from the claim (C5): the fused score of a function key — the
weighted position sums plus 0.02 per keyword occurrence in the candidate
content. -/
def specFusedScore (retrieved : List (String × List Doc)) (query query_type : String)
    (key : String) : ℚ :=
  specPosSum query_type key retrieved
    + match firstSeenDoc retrieved key with
      | some d => (2 / 100 : ℚ)
          * (simple_keyword_score d.page_content (keywordsFor query query_type) : ℚ)
      | none => 0

theorem msAdd_score (st : MergeState) (key : String) (v : ℚ) (d : Doc) (k : String) :
    (msAdd st key v d).score k = if k = key then st.score k + v else st.score k := rfl

theorem msAdd_docOf (st : MergeState) (key : String) (v : ℚ) (d : Doc) (k : String) :
    (msAdd st key v d).docOf k
      = if k = key then
          (match st.docOf key with
           | some d0 => some d0
           | none => some d)
        else st.docOf k := rfl

theorem msDocs_score (w : ℚ) (n : Nat) (hn : 1 ≤ n) :
    ∀ (docs : List Doc) (r : Nat) (st : MergeState) (k : String),
      (msDocs w n r docs st).score k = st.score k + specRowSum w n k docs r := by
  intro docs
  induction docs with
  | nil => intro r st k; simp [msDocs, specRowSum]
  | cons d t ih =>
    intro r st k
    simp only [msDocs, specRowSum]
    rw [ih]
    rw [msAdd_score]
    have hmax : max (1 : ℚ) (n : ℚ) = (n : ℚ) := by
      rw [max_eq_right]
      exact_mod_cast hn
    by_cases hk : k = fuseKey d.metadata
    · rw [if_pos hk, if_pos (by rw [hk])]
      rw [hmax]
      ring
    · rw [if_neg hk, if_neg (fun hc => hk hc.symm)]
      ring

theorem msDocs_docOf (w : ℚ) (n : Nat) :
    ∀ (docs : List Doc) (r : Nat) (st : MergeState) (k : String),
      (msDocs w n r docs st).docOf k
        = match st.docOf k with
          | some d0 => some d0
          | none => docs.find? (fun d => decide (fuseKey d.metadata = k)) := by
  intro docs
  induction docs with
  | nil =>
    intro r st k
    simp only [msDocs, List.find?]
    cases st.docOf k <;> rfl
  | cons d t ih =>
    intro r st k
    simp only [msDocs]
    rw [ih]
    rw [msAdd_docOf]
    by_cases hk : k = fuseKey d.metadata
    · rw [if_pos hk]
      rw [← hk]
      have hfind : (d :: t).find? (fun d => decide (fuseKey d.metadata = k))
          = some d := by
        rw [List.find?_cons_of_pos _ (by simp [hk])]
      rw [hfind]
      cases st.docOf k <;> rfl
    · rw [if_neg hk]
      have hfind : (d :: t).find? (fun d2 => decide (fuseKey d2.metadata = k))
          = t.find? (fun d2 => decide (fuseKey d2.metadata = k)) := by
        rw [List.find?_cons_of_neg _ (by simp; exact fun hc => hk hc.symm)]
      rw [hfind]

theorem msAll_score (query_type : String) :
    ∀ (retrieved : List (String × List Doc)) (st : MergeState) (k : String),
      (msAll query_type retrieved st).score k
        = st.score k + specPosSum query_type k retrieved := by
  intro retrieved
  induction retrieved with
  | nil => intro st k; simp [msAll, specPosSum]
  | cons hd rest ih =>
    intro st k
    obtain ⟨sn, docs⟩ := hd
    simp only [msAll, specPosSum]
    rw [ih]
    cases docs with
    | nil => simp [msDocs, specRowSum]
    | cons d t =>
      rw [msDocs_score _ _ (by simp) _ _ _ _]
      ring

theorem msAll_docOf (query_type : String) :
    ∀ (retrieved : List (String × List Doc)) (st : MergeState) (k : String),
      (msAll query_type retrieved st).docOf k
        = match st.docOf k with
          | some d0 => some d0
          | none => firstSeenDoc retrieved k := by
  intro retrieved
  induction retrieved with
  | nil =>
    intro st k
    simp only [msAll, firstSeenDoc, List.map_nil, List.flatten_nil, List.find?]
    cases st.docOf k <;> rfl
  | cons hd rest ih =>
    intro st k
    obtain ⟨sn, docs⟩ := hd
    simp only [msAll]
    rw [ih, msDocs_docOf]
    have hfs : firstSeenDoc ((sn, docs) :: rest) k
        = match docs.find? (fun d => decide (fuseKey d.metadata = k)) with
          | some d => some d
          | none => firstSeenDoc rest k := by
      unfold firstSeenDoc
      simp only [List.map_cons, List.flatten_cons]
      rw [List.find?_append]
      cases docs.find? (fun d => decide (fuseKey d.metadata = k)) <;> rfl
    rw [hfs]
    cases st.docOf k with
    | some d0 => rfl
    | none => cases docs.find? (fun d => decide (fuseKey d.metadata = k)) <;> rfl

/-- C5: every candidate returned by rank fusion carries, as its score, the
claim's closed-form fused score of its function key — the sum over views of
the view weight times max(0, 1 - rank/len) per occurrence, plus 0.02 per
keyword occurrence in the kept content — and the returned list is sorted in
descending score order. -/
theorem c5_rank_fusion (retrieved : List (String × List Doc)) (query query_type : String)
    (top_k : Nat) (p : ℚ × Doc)
    (hp : p ∈ _merge_and_score retrieved query query_type top_k) :
    p.1 = specFusedScore retrieved query query_type (fuseKey p.2.metadata)
    ∧ (_merge_and_score retrieved query query_type top_k).Pairwise
        (fun a b => b.1 ≤ a.1) := by
  constructor
  · unfold _merge_and_score at hp
    simp only [] at hp
    obtain ⟨q, hq, hfq⟩ := List.mem_filterMap.mp hp
    obtain ⟨d, hd, hpd⟩ := Option.map_eq_some'.mp hfq
    have hqr : q ∈ (((msAll query_type retrieved msInit).keys.map
        (fun k => (k, msBoost (msAll query_type retrieved msInit)
          (keywordsFor query query_type) k))).insertionSort rankRel) :=
      List.mem_of_mem_take hq
    have hqm := (List.perm_insertionSort rankRel _).mem_iff.mp hqr
    obtain ⟨k, _, hk2⟩ := List.mem_map.mp hqm
    have hdoc : (msAll query_type retrieved msInit).docOf k = some d := by
      rw [← hk2] at hd
      exact hd
    have hfirst : firstSeenDoc retrieved k = some d := by
      rw [msAll_docOf] at hdoc
      simpa [msInit] using hdoc
    have hkey : fuseKey d.metadata = k := by
      have := List.find?_some hfirst
      simpa using this
    have hp2 : p.2 = d := by rw [← hpd]
    have hp1 : p.1 = msBoost (msAll query_type retrieved msInit)
        (keywordsFor query query_type) k := by
      rw [← hpd, ← hk2]
    rw [hp1, hp2, hkey]
    unfold msBoost specFusedScore
    rw [msAll_score, hdoc, hfirst]
    simp [msInit]
  · unfold _merge_and_score
    simp only []
    rw [List.pairwise_filterMap]
    refine List.Pairwise.imp ?_
      ((List.sorted_insertionSort rankRel _).take)
    intro a b hab x hx y hy
    obtain ⟨dx, _, hdx⟩ := Option.map_eq_some'.mp hx
    obtain ⟨dy, _, hdy⟩ := Option.map_eq_some'.mp hy
    rw [← hdx, ← hdy]
    exact hab

/-- Concrete document and retrieval list for the C5 witness. -/
def egDoc : Doc :=
  { page_content := "Function: alpha\nCode:\nreturn alpha"
    metadata := { display_name := some "alpha", name := none, filename := some "a.py",
                  line_number := some 3, lineNumber := none, method_id := some 7 } }

def egRetrieved : List (String × List Doc) := [("semantic", [egDoc])]

/-- The single fused candidate of the witness retrieval: its score term is
the engine's own boosted score of the one key present. -/
def egPair : ℚ × Doc :=
  (msBoost (msAll "semantic" egRetrieved msInit) (keywordsFor "find alpha" "semantic")
    (fuseKey egDoc.metadata), egDoc)

theorem c5_witness :
    egPair.1 = specFusedScore egRetrieved "find alpha" "semantic"
        (fuseKey egPair.2.metadata)
    ∧ (_merge_and_score egRetrieved "find alpha" "semantic" 1).Pairwise
        (fun a b => b.1 ≤ a.1) :=
  c5_rank_fusion egRetrieved "find alpha" "semantic" 1 egPair
    (by
      have h : _merge_and_score egRetrieved "find alpha" "semantic" 1 = [egPair] := rfl
      rw [h]
      exact List.mem_singleton_self _)

end CPG
